import Mathlib

/-!
Verification development for the ledger-unification and bank-statement
ingestion core of the Igen back office.

Modelling conventions used throughout:

* Text is modelled as `List Char` (called `Str` below); Python string
  operations (`str.split`, `str.strip`, `str.lower`, `" ".join`) are
  translated to structural functions on character lists.
* `Decimal` values are modelled as `ℚ`; `quantize(Decimal("0.01"),
  ROUND_HALF_UP)` (the `_q2` helper) becomes an exact round-half-away-from-zero
  at two fractional digits.
* Calendar dates are modelled as ordinal day numbers (`ℤ`); `date.isoformat`
  becomes an injective decimal rendering, and `date - timedelta(days=1)`
  becomes subtraction by one.  Calendar structure (months, years) is never
  load bearing for the verified properties.
* External primitives that the repository calls but does not define are
  abstracted as function parameters: the SHA-256 hex digest (`hash`), the
  UTR-extraction regular expression (`xref`), the `_to_decimal` string
  parser (`toDec`), and the `_format_period` calendar renderer
  (`periodLabel`).  Every verified property is proved for all values of
  these parameters.
* Database querysets are modelled as explicit lists; ordering clauses and
  company scoping are resolved by the caller and passed as data.
-/

/-- Text as a list of characters. -/
abbrev Str := List Char

/-- Whitespace characters recognised by the Python `str.split` / `str.strip`
used in the sources (ASCII whitespace). -/
def isSpace (c : Char) : Bool :=
  c.toNat == 32 || c.toNat == 9 || c.toNat == 10 || c.toNat == 13

/-- Helper for `pySplit`: walks the string accumulating the current word
(reversed); whitespace runs separate words and empty words are dropped,
exactly as Python `str.split()` with no arguments behaves. -/
def splitWs : Str → Str → List Str
  | [], acc => if acc.isEmpty then [] else [acc.reverse]
  | c :: rest, acc =>
    if isSpace c then
      if acc.isEmpty then splitWs rest [] else acc.reverse :: splitWs rest []
    else
      splitWs rest (c :: acc)

/-- Python `s.split()` (split on whitespace runs, dropping empty fields). -/
def pySplit (s : Str) : List Str := splitWs s []

/-- Python `s.strip()` restricted to ASCII whitespace. -/
def trimStr (s : Str) : Str :=
  ((s.dropWhile isSpace).reverse.dropWhile isSpace).reverse

/-- Python `s.lower()` (ASCII case folding suffices for the sources). -/
def lowerStr (s : Str) : Str := s.map Char.toLower

/-- Embeds `_norm` from `bank_uploads/views.py`: `(s or "").strip().lower()`. -/
def pnorm (s : Option Str) : Str := lowerStr (trimStr (s.getD []))

/-- Embeds `_canon_text` from `bank_uploads/views.py`:
`" ".join((s or "").split()).lower()` — collapse internal whitespace to a
single space, trim, and lowercase. -/
def canonText (s : Option Str) : Str :=
  lowerStr (List.intercalate [' '] (pySplit (s.getD [])))

/-- Round a rational to the nearest integer, ties away from zero — the
behaviour of decimal `ROUND_HALF_UP` at integer precision. -/
def rhu (x : ℚ) : ℤ := if 0 ≤ x then ⌊x + 1 / 2⌋ else -⌊-x + 1 / 2⌋

/-- Embeds `_q2` from `bank_uploads/views.py`: quantize to two fractional
digits with `ROUND_HALF_UP` (ties away from zero). -/
def q2 (x : ℚ) : ℚ := (rhu (100 * x) : ℚ) / 100

/-- Embeds `_q2` applied to an optional value: `(x or Decimal("0"))` maps
a missing value to zero before quantizing. -/
def q2N (x : Option ℚ) : ℚ := q2 (x.getD 0)

/-- A rational is a money value when it is fixed by two-decimal
quantization (equivalently, an integer number of cents). -/
def IsMoney (x : ℚ) : Prop := q2 x = x

lemma rhu_intCast (n : ℤ) : rhu (n : ℚ) = n := by
  unfold rhu
  by_cases h : 0 ≤ (n : ℚ)
  · rw [if_pos h]
    rw [show ((n : ℚ) + 1 / 2) = 1 / 2 + (n : ℤ) by ring]
    rw [Int.floor_add_int]
    norm_num
  · rw [if_neg h]
    rw [show (-(n : ℚ) + 1 / 2) = 1 / 2 + ((-n : ℤ) : ℚ) by push_cast; ring]
    rw [Int.floor_add_int]
    norm_num

lemma q2_div100 (n : ℤ) : q2 ((n : ℚ) / 100) = (n : ℚ) / 100 := by
  unfold q2
  rw [show (100 : ℚ) * ((n : ℚ) / 100) = (n : ℚ) by ring, rhu_intCast]

lemma isMoney_div100 (n : ℤ) : IsMoney ((n : ℚ) / 100) := q2_div100 n

lemma q2_intCast (n : ℤ) : q2 (n : ℚ) = (n : ℚ) := by
  have h := q2_div100 (n * 100)
  rw [show (((n * 100 : ℤ) : ℚ) / 100) = (n : ℚ) by push_cast; ring] at h
  exact h

lemma isMoney_intCast (n : ℤ) : IsMoney (n : ℚ) := q2_intCast n

lemma isMoney_iff {x : ℚ} : IsMoney x ↔ ∃ n : ℤ, x = (n : ℚ) / 100 := by
  constructor
  · intro h
    exact ⟨rhu (100 * x), h.symm⟩
  · rintro ⟨n, rfl⟩
    exact q2_div100 n

lemma IsMoney.add {x y : ℚ} (hx : IsMoney x) (hy : IsMoney y) : IsMoney (x + y) := by
  rcases isMoney_iff.mp hx with ⟨n, rfl⟩
  rcases isMoney_iff.mp hy with ⟨m, rfl⟩
  refine isMoney_iff.mpr ⟨n + m, ?_⟩
  push_cast
  ring

lemma IsMoney.sub {x y : ℚ} (hx : IsMoney x) (hy : IsMoney y) : IsMoney (x - y) := by
  rcases isMoney_iff.mp hx with ⟨n, rfl⟩
  rcases isMoney_iff.mp hy with ⟨m, rfl⟩
  refine isMoney_iff.mpr ⟨n - m, ?_⟩
  push_cast
  ring

lemma IsMoney.q2_eq {x : ℚ} (hx : IsMoney x) : q2 x = x := hx

lemma isMoney_q2 (x : ℚ) : IsMoney (q2 x) := isMoney_div100 (rhu (100 * x))

lemma q2_zero : q2 0 = 0 := by
  simpa using q2_intCast 0

/-- Decimal digits of a natural number (least significant digit handling via
`Nat.toDigits`, which the kernel can evaluate). -/
def natDigits (n : ℕ) : Str := Nat.toDigits 10 n

/-- Rendering of an ordinal-day date, standing in for `date.isoformat()`
(injective rendering is all the verified properties rely on). -/
def isoformat (d : ℤ) : Str :=
  (if d < 0 then ['-'] else []) ++ natDigits d.natAbs

/-- Two-digit zero-padded rendering of a number below 100. -/
def pad2 (n : ℕ) : Str := if n < 10 then '0' :: natDigits n else natDigits n

/-- Embeds `format(x, "f")` on a two-decimal quantized Decimal: sign, integer
part, dot, and exactly two fractional digits. -/
def formatF (x : ℚ) : Str :=
  let c : ℤ := rhu (100 * x)
  (if c < 0 then ['-'] else []) ++ natDigits (c.natAbs / 100) ++ '.' :: pad2 (c.natAbs % 100)

/-- Parsed CSV row draft: the dict appended to `parsed_rows` in
`UploadBankTransactionsView.post` (`bank_uploads/views.py`). -/
structure PRow where
  transaction_date : ℤ
  narration : Str
  credit_amount : Option ℚ
  debit_amount : Option ℚ
  balance_amount : ℚ
  utr_number : Option Str
  signed_amount : ℚ
deriving DecidableEq

/-- Loop body of `_check_continuity`: given the balance before the next row,
check each row against `prev_balance + _q2(signed) == _q2(balance)` and
thread the stated balance forward. -/
def contLoop (prev : ℚ) : List PRow → Bool
  | [] => true
  | r :: rest =>
    if q2 (prev + q2 r.signed_amount) = q2 r.balance_amount then
      contLoop (q2 r.balance_amount) rest
    else
      false

/-- Embeds `_check_continuity` from `bank_uploads/views.py`: returns
`(ok, opening_balance)` for the given sequence order, where the opening
balance is the balance before the first row. -/
def checkContinuity : List PRow → Bool × Option ℚ
  | [] => (true, none)
  | r0 :: rest =>
    if contLoop (q2 (r0.balance_amount - r0.signed_amount)) (r0 :: rest) then
      (true, some (q2 (r0.balance_amount - r0.signed_amount)))
    else
      (false, none)

/-- Embeds `_continuity_and_opening` from `bank_uploads/views.py`: try the
given order, then the reverse; return `(ok, opening, used_order_rows)`. -/
def continuityAndOpening (rows : List PRow) : Bool × Option ℚ × List PRow :=
  let c := checkContinuity rows
  if c.1 then
    (true, c.2, rows)
  else
    let c2 := checkContinuity rows.reverse
    if c2.1 then (true, c2.2, rows.reverse) else (false, none, rows)

/-- Embeds the payload string of `_dedupe_key`:
`date.isoformat() | canon(narration) | format(q2(signed), "f") | canon(utr)`. -/
def dedupePayload (d : ℤ) (narr : Str) (signed : ℚ) (utr : Str) : Str :=
  isoformat d ++ '|' :: canonText (some narr)
    ++ '|' :: formatF (q2 signed)
    ++ '|' :: canonText (some utr)

/-- Embeds `_dedupe_key`; the SHA-256 hex digest is abstracted as the `hash`
parameter (every property below holds for all values of `hash`). -/
def dedupeKey (hash : Str → Str) (d : ℤ) (narr : Str) (signed : ℚ) (utr : Str) : Str :=
  hash (dedupePayload d narr signed utr)

/-- First truthy value of an `a or b or ""` chain over optional strings
(Python treats both a missing value and an empty string as falsy). -/
def firstTruthy : List (Option Str) → Str
  | [] => []
  | a :: rest =>
    match a with
    | some u => if u.isEmpty then firstTruthy rest else u
    | none => firstTruthy rest

/-- Reference used for the primary dedupe key:
`(r["utr_number"] or _extract_ref_from_narration(r["narration"]) or "").strip()`.
The UTR-extraction regular expression is abstracted as the `xref` parameter. -/
def bestUtr (xref : Str → Option Str) (r : PRow) : Str :=
  trimStr (firstTruthy [r.utr_number, xref r.narration])

/-- The pair of candidate dedupe keys of one row: one with the extracted or
explicit reference, one with the empty reference. -/
def rowKeys (hash : Str → Str) (xref : Str → Option Str) (r : PRow) : List Str :=
  [dedupeKey hash r.transaction_date r.narration r.signed_amount (bestUtr xref r),
   dedupeKey hash r.transaction_date r.narration r.signed_amount []]

/-- Embeds the duplicate pre-filter loop of `UploadBankTransactionsView.post`:
a row is flagged (`false` = skipped as duplicate) when either of its keys is
in the database key set or in the key set of earlier kept rows of the file;
kept rows contribute their keys to `seen`. -/
def dedupeScan (hash : Str → Str) (xref : Str → Option Str) (existing : List Str) :
    List PRow → List Str → List (Bool × PRow)
  | [], _ => []
  | r :: rest, seen =>
    let ks := rowKeys hash xref r
    if ks.any (fun k => existing.contains k) || ks.any (fun k => seen.contains k) then
      (false, r) :: dedupeScan hash xref existing rest seen
    else
      (true, r) :: dedupeScan hash xref existing rest (seen ++ ks)

/-- Modelled from the spec: the persisted `BankTransaction` row
(`bank_uploads/models.py` is not under `src/`; fields follow the data-model
section of the specification and the view code that constructs them). -/
structure BankTxn where
  transaction_date : ℤ
  narration : Str
  credit_amount : Option ℚ
  debit_amount : Option ℚ
  balance_amount : ℚ
  utr_number : Option Str
  signed_amount : ℚ
  dedupe_key : Str
deriving DecidableEq

/-- Modelled from the spec: `BankTransaction._compute_signed_amount` —
`credit_amount` if present, else minus `debit_amount`, else zero, quantized
to two decimals. -/
def computeSignedAmount (credit debit : Option ℚ) : ℚ :=
  q2 (match credit with
      | some c => c
      | none =>
        match debit with
        | some d => 0 - d
        | none => 0)

/-- Builds the `BankTransaction` object inserted for a kept row, as
`UploadBankTransactionsView.post` does: derived fields are precomputed, the
stored key uses the stored reference (`best_utr or None`, which the
modelled-from-spec `_build_dedupe_key` normalizes back to the same text). -/
def mkBankTxn (hash : Str → Str) (xref : Str → Option Str) (r : PRow) : BankTxn :=
  let u := bestUtr xref r
  let s := computeSignedAmount r.credit_amount r.debit_amount
  ⟨r.transaction_date, r.narration, r.credit_amount, r.debit_amount, r.balance_amount,
   (if u.isEmpty then none else some u), s,
   dedupeKey hash r.transaction_date r.narration s u⟩

/-- Modelled from the spec: conflict-ignoring bulk insert keyed on the dedupe
key — an object whose key is already stored (or already inserted earlier in
the same batch) is silently dropped. -/
def bulkCreate (existing : List Str) : List BankTxn → List Str → List BankTxn
  | [], _ => []
  | o :: rest, added =>
    if existing.contains o.dedupe_key || added.contains o.dedupe_key then
      bulkCreate existing rest added
    else
      o :: bulkCreate existing rest (o.dedupe_key :: added)

def reasonContinuity : Str :=
  "Balance continuity failed within the file.".toList

def reasonPrevBalance : Str :=
  "Previous ending balance does not match the opening balance of this file.".toList

/-- Outcome of an upload request: the batch counters and flags together with
the response payload fields and the list of persisted rows. -/
structure UploadResult where
  ok : Bool
  uploaded_count : ℕ
  skipped_count : ℕ
  errors_count : ℕ
  balance_continuity_in_file : Bool
  previous_ending_balance_match : Bool
  balance_continuity : Str
  opening_balance_in_file : Option ℚ
  reasons : List Str
  skipped_rows : List PRow
  inserted : List BankTxn
deriving DecidableEq

/-- Rows kept (not flagged as duplicates) by the pre-filter loop. -/
def keptOf (l : List (Bool × PRow)) : List PRow :=
  l.filterMap (fun p => if p.1 then some p.2 else none)

/-- Rows flagged as duplicates by the pre-filter loop (the `skipped_rows`
payload entries). -/
def skippedOf (l : List (Bool × PRow)) : List PRow :=
  l.filterMap (fun p => if p.1 then none else some p.2)

/-- Embeds the previous-ending-balance comparison of
`UploadBankTransactionsView.post`: skipped entirely when the used row list
is empty or no transaction is persisted; otherwise the stored balance must
equal the detected opening balance after two-decimal quantization. -/
def prevBalanceMatch (prevBal : Option ℚ) (used : List PRow) (opening : Option ℚ) : Bool :=
  if used.isEmpty then true
  else
    match prevBal with
    | none => true
    | some pb => decide (q2 pb = q2 (opening.getD 0))

/-- Embeds `UploadBankTransactionsView.post` from the continuity checks
onward (`bank_uploads/views.py` lines 300-429).  The database is abstracted:
`prevBal` is the `balance_amount` of the most recently persisted transaction
for the account (ordered by `-transaction_date, -created_at`), `existing`
the set of stored dedupe keys for the account, `parsed` the rows surviving
per-row parsing, and `errors` the per-row parse failure count. -/
def processUpload (hash : Str → Str) (xref : Str → Option Str) (prevBal : Option ℚ)
    (existing : List Str) (parsed : List PRow) (errors : ℕ) : UploadResult :=
  let co := continuityAndOpening parsed
  let contOk := co.1
  let opening := co.2.1
  let used := co.2.2
  let prevMatch : Bool := prevBalanceMatch prevBal used opening
  if contOk && prevMatch then
    let scanned := dedupeScan hash xref existing used []
    let kept := keptOf scanned
    let skippedRows := skippedOf scanned
    let objs := kept.map (mkBankTxn hash xref)
    let inserted := bulkCreate existing objs []
    let created := inserted.length
    let dbConflictSkipped := objs.length - created
    let prefilterSkipped := used.length - kept.length
    ⟨true, created, prefilterSkipped + dbConflictSkipped, errors,
     contOk, prevMatch, "Valid".toList, none, [], skippedRows, inserted⟩
  else
    ⟨false, 0, 0, errors + 1, contOk, prevMatch, "Invalid".toList, opening,
     (if contOk then [] else [reasonContinuity])
       ++ (if prevMatch then [] else [reasonPrevBalance]),
     [], []⟩

/-- Embeds the signed-amount derivation of the CSV parse loop
(`bank_uploads/views.py` lines 263-296): the combined type+amount fallback
mutates the credit/debit pair, then the signed amount is derived and
quantized.  `_to_decimal` is abstracted as the `toDec` parameter; `credit0`
and `debit0` are the already-parsed credit and debit column values.  Returns
the final `(credit, debit, signed)` triple stored into the parsed row. -/
def deriveSigned (toDec : Str → Option ℚ) (credit0 debit0 : Option ℚ)
    (amount_val type_val : Option Str) : Option ℚ × Option ℚ × ℚ :=
  let cd : Option ℚ × Option ℚ :=
    if credit0.isNone && debit0.isNone && amount_val.isSome && type_val.isSome then
      let amt := (toDec (amount_val.getD [])).getD 0
      let t := pnorm type_val
      if t = "cr".toList ∨ t = "credit".toList then
        (some amt, debit0)
      else if t = "dr".toList ∨ t = "debit".toList then
        (credit0, some amt)
      else
        (credit0, debit0)
    else
      (credit0, debit0)
  let signed : ℚ :=
    q2 (match cd.1 with
        | some c => c
        | none =>
          match cd.2 with
          | some d => 0 - d
          | none => 0)
  (cd.1, cd.2, signed)

lemma isMoney_natCast (n : ℕ) : IsMoney (n : ℚ) := by
  exact_mod_cast isMoney_intCast n

lemma isMoney_zero : IsMoney (0 : ℚ) := by
  simpa using isMoney_natCast 0

lemma isMoney_one : IsMoney (1 : ℚ) := by
  simpa using isMoney_natCast 1

lemma isMoney_ofNat (n : ℕ) [n.AtLeastTwo] : IsMoney (OfNat.ofNat n : ℚ) := by
  rw [← Nat.cast_ofNat]
  exact isMoney_natCast _

lemma IsMoney.neg {x : ℚ} (hx : IsMoney x) : IsMoney (-x) := by
  simpa using isMoney_zero.sub hx

lemma q2_ofNat (n : ℕ) [n.AtLeastTwo] : q2 (OfNat.ofNat n : ℚ) = OfNat.ofNat n :=
  isMoney_ofNat n

lemma q2_one : q2 1 = 1 := isMoney_one

lemma q2_neg_ofNat (n : ℕ) [n.AtLeastTwo] : q2 (-(OfNat.ofNat n : ℚ)) = -OfNat.ofNat n :=
  (isMoney_ofNat n).neg

/-- Relation between consecutive rows of a continuous statement: each stated
balance is the previous stated balance plus the signed amount of the row. -/
def balStep (a b : PRow) : Prop :=
  b.balance_amount = a.balance_amount + b.signed_amount

/-- Rows whose stated balance and signed amount are both two-decimal money
values (as every really parsed bank row is). -/
def MoneyRow (r : PRow) : Prop :=
  IsMoney r.balance_amount ∧ IsMoney r.signed_amount

lemma contLoop_of_chain :
    ∀ (l : List PRow) (prev : ℚ), (∀ r ∈ l, MoneyRow r) → IsMoney prev →
      (∀ r ∈ l.head?, r.balance_amount = prev + r.signed_amount) →
      l.Chain' balStep → contLoop prev l = true := by
  intro l
  induction l with
  | nil => intro prev _ _ _ _; rfl
  | cons r rest ih =>
    intro prev hm hprev hhead hchain
    have hb : IsMoney r.balance_amount := (hm r (by simp)).1
    have hs : IsMoney r.signed_amount := (hm r (by simp)).2
    have hr : r.balance_amount = prev + r.signed_amount := hhead r (by simp)
    have e1 : q2 (prev + q2 r.signed_amount) = q2 r.balance_amount := by
      rw [hs.q2_eq, ← hr]
    rw [contLoop, if_pos e1, hb.q2_eq]
    rcases List.chain'_cons'.mp hchain with ⟨hhd, htl⟩
    refine ih r.balance_amount (fun x hx => hm x (by simp [hx])) hb ?_ htl
    intro y hy
    exact hhd y hy

/-- C1: for every non-empty sequence of two-decimal money rows in which each
stated balance equals the previous stated balance plus the quantized signed
amount, `_check_continuity` returns `(True, balance[0] - signedAmount[0])`;
when the natural order fails but the reversed order passes,
`_continuity_and_opening` accepts the file and returns the reversed order
with the opening balance detected on it; when both orders fail, it reports
failure and the upload is rejected. -/
theorem C1_continuity_determinism_and_order :
    (∀ (r0 : PRow) (rest : List PRow),
        (∀ r ∈ r0 :: rest, MoneyRow r) →
        (r0 :: rest).Chain' balStep →
        checkContinuity (r0 :: rest) =
          (true, some (r0.balance_amount - r0.signed_amount)))
    ∧ (∀ rows : List PRow,
        (checkContinuity rows).1 = false →
        (checkContinuity rows.reverse).1 = true →
        continuityAndOpening rows =
          (true, (checkContinuity rows.reverse).2, rows.reverse))
    ∧ (∀ (rows : List PRow) (hash : Str → Str) (xref : Str → Option Str)
        (prevBal : Option ℚ) (existing : List Str) (errors : ℕ),
        (checkContinuity rows).1 = false →
        (checkContinuity rows.reverse).1 = false →
        continuityAndOpening rows = (false, none, rows) ∧
          (processUpload hash xref prevBal existing rows errors).ok = false) := by
  refine ⟨?_, ?_, ?_⟩
  · intro r0 rest hm hchain
    have hb : IsMoney r0.balance_amount := (hm r0 (by simp)).1
    have hs : IsMoney r0.signed_amount := (hm r0 (by simp)).2
    have hop : q2 (r0.balance_amount - r0.signed_amount)
        = r0.balance_amount - r0.signed_amount := (hb.sub hs).q2_eq
    have hloop : contLoop (q2 (r0.balance_amount - r0.signed_amount)) (r0 :: rest) = true := by
      rw [hop]
      refine contLoop_of_chain _ _ hm (hb.sub hs) ?_ hchain
      intro y hy
      simp only [List.head?_cons, Option.mem_def, Option.some.injEq] at hy
      subst hy
      ring
    rw [checkContinuity, if_pos hloop, hop]
  · intro rows h1 h2
    unfold continuityAndOpening
    simp [h1, h2]
  · intro rows hash xref prevBal existing errors h1 h2
    have hco : continuityAndOpening rows = (false, none, rows) := by
      unfold continuityAndOpening
      simp [h1, h2]
    refine ⟨hco, ?_⟩
    unfold processUpload
    rw [hco]
    simp

theorem C1_witness :
    (∀ r ∈ [(⟨1, [], some 100, none, 100, none, 100⟩ : PRow),
            ⟨2, [], none, some 20, 80, none, -20⟩], MoneyRow r)
    ∧ checkContinuity [(⟨1, [], some 100, none, 100, none, 100⟩ : PRow),
            ⟨2, [], none, some 20, 80, none, -20⟩] = (true, some (100 - 100))
    ∧ continuityAndOpening [(⟨1, [], none, some 20, 80, none, -20⟩ : PRow),
            ⟨2, [], some 100, none, 100, none, 100⟩] =
        (true,
         (checkContinuity
            [(⟨1, [], none, some 20, 80, none, -20⟩ : PRow),
             ⟨2, [], some 100, none, 100, none, 100⟩].reverse).2,
         [(⟨1, [], none, some 20, 80, none, -20⟩ : PRow),
          ⟨2, [], some 100, none, 100, none, 100⟩].reverse)
    ∧ continuityAndOpening [(⟨1, [], some 1, none, 10, none, 1⟩ : PRow),
            ⟨2, [], some 1, none, 0, none, 1⟩] =
        (false, none,
         [(⟨1, [], some 1, none, 10, none, 1⟩ : PRow), ⟨2, [], some 1, none, 0, none, 1⟩]) := by
  have hm : ∀ r ∈ [(⟨1, [], some 100, none, 100, none, 100⟩ : PRow),
      ⟨2, [], none, some 20, 80, none, -20⟩], MoneyRow r := by
    intro r hr
    simp only [List.mem_cons, List.not_mem_nil, or_false] at hr
    rcases hr with rfl | rfl
    · exact ⟨by unfold IsMoney q2 rhu; norm_num, by unfold IsMoney q2 rhu; norm_num⟩
    · exact ⟨by unfold IsMoney q2 rhu; norm_num, by unfold IsMoney q2 rhu; norm_num⟩
  refine ⟨hm, ?_, ?_, ?_⟩
  · exact C1_continuity_determinism_and_order.1 _ _ hm (by
      constructor
      · show (80 : ℚ) = 100 + -20
        norm_num
      · exact List.chain'_singleton _)
  · refine C1_continuity_determinism_and_order.2.1 _ ?_ ?_
    · norm_num [checkContinuity, contLoop, q2, rhu]
    · norm_num [checkContinuity, contLoop, q2, rhu]
  · exact (C1_continuity_determinism_and_order.2.2 _ (fun s => s) (fun _ => none) none [] 0
      (by norm_num [checkContinuity, contLoop, q2, rhu])
      (by norm_num [checkContinuity, contLoop, q2, rhu])).1

lemma toNat_ofNat_small (n : ℕ) (h : n < 55296) : (Char.ofNat n).toNat = n := by
  have hv : n.isValidChar := Or.inl h
  rw [Char.ofNat, dif_pos hv]
  simp [Char.ofNatAux, Char.toNat, UInt32.toNat, UInt32.ofNatCore]

lemma isSpace_toLower (c : Char) : isSpace (Char.toLower c) = isSpace c := by
  unfold Char.toLower
  by_cases h : c.toNat ≥ 65 ∧ c.toNat ≤ 90
  · rw [if_pos h]
    have hv : (Char.ofNat (c.toNat + 32)).toNat = c.toNat + 32 :=
      toNat_ofNat_small _ (by omega)
    unfold isSpace
    rw [hv]
    have h1 : ∀ m : ℕ, 65 ≤ m → (m == 32 || m == 9 || m == 10 || m == 13) = false := by
      intro m hm
      simp only [Bool.or_eq_false_iff, beq_eq_false_iff_ne, ne_eq]
      omega
    rw [h1 _ (by omega), h1 _ (by omega)]
  · rw [if_neg h]

lemma toLower_space : Char.toLower ' ' = ' ' := by decide

lemma lowerStr_reverse (s : Str) : lowerStr s.reverse = (lowerStr s).reverse := by
  simp [lowerStr]

lemma splitWs_lower (s : Str) :
    ∀ acc : Str, splitWs (s.map Char.toLower) (acc.map Char.toLower)
      = (splitWs s acc).map (List.map Char.toLower) := by
  induction s with
  | nil =>
    intro acc
    cases acc with
    | nil => rfl
    | cons a as =>
      show (if ((a :: as).map Char.toLower).isEmpty then ([] : List Str)
          else [((a :: as).map Char.toLower).reverse])
        = ((if (a :: as : Str).isEmpty then ([] : List Str)
          else [(a :: as).reverse]).map (List.map Char.toLower))
      simp
  | cons c cs ih =>
    intro acc
    show splitWs (Char.toLower c :: cs.map Char.toLower) (acc.map Char.toLower) = _
    rw [splitWs, splitWs, isSpace_toLower]
    by_cases hsp : isSpace c = true
    · rw [if_pos hsp, if_pos hsp]
      cases acc with
      | nil => simpa using ih []
      | cons a as =>
        have h1 : ((a :: as).map Char.toLower).isEmpty = false := rfl
        have h2 : ((a :: as) : Str).isEmpty = false := rfl
        rw [h1, h2]
        simp only [Bool.false_eq_true, if_false, List.map_cons]
        have h3 := ih []
        simp only [List.map_nil] at h3
        rw [h3]
        simp
    · rw [if_neg hsp, if_neg hsp]
      have h4 : Char.toLower c :: acc.map Char.toLower
          = (c :: acc).map Char.toLower := rfl
      rw [h4, ih (c :: acc)]

lemma pySplit_lower (s : Str) : pySplit (lowerStr s) = (pySplit s).map lowerStr := by
  have := splitWs_lower s []
  simpa [pySplit, lowerStr] using this

lemma intersperse_map (f : Char → Char) (sep : Str) :
    ∀ xs : List Str, (List.intersperse sep xs).map (List.map f)
      = List.intersperse (sep.map f) (xs.map (List.map f)) := by
  intro xs
  induction xs with
  | nil => rfl
  | cons x rest ih =>
    cases rest with
    | nil => rfl
    | cons y more =>
      simp only [List.intersperse_cons_cons, List.map_cons]
      rw [ih]
      simp

lemma lowerStr_intercalate_space (ws : List Str) :
    lowerStr (List.intercalate [' '] ws)
      = List.intercalate [' '] (ws.map lowerStr) := by
  unfold List.intercalate lowerStr
  rw [List.map_flatten, intersperse_map]
  have hsep : ([' '] : Str).map Char.toLower = [' '] := by decide
  rw [hsep]

lemma canonText_eq_of_split_eq {n1 n2 : Str} (h : pySplit n1 = pySplit n2) :
    canonText (some n1) = canonText (some n2) := by
  unfold canonText
  simp only [Option.getD_some]
  rw [h]

lemma canonText_eq_of_lower_eq {r1 r2 : Str} (h : lowerStr r1 = lowerStr r2) :
    canonText (some r1) = canonText (some r2) := by
  unfold canonText
  simp only [Option.getD_some]
  rw [lowerStr_intercalate_space, lowerStr_intercalate_space,
    ← pySplit_lower, ← pySplit_lower, h]

/-- C3: the dedupe key is the hash of
`date.isoformat() | normalized narration | plain-decimal 2dp signed amount |
normalized reference`; it is invariant under whitespace variation of the
narration (same whitespace-separated words) and under case variation of the
reference (same lowercasing). -/
theorem C3_dedupe_key_stability (hash : Str → Str) (d : ℤ) (amt : ℚ)
    (n1 n2 r1 r2 : Str)
    (hn : pySplit n1 = pySplit n2) (hr : lowerStr r1 = lowerStr r2) :
    dedupeKey hash d n1 amt r1 =
      hash (isoformat d ++ '|' :: canonText (some n1)
        ++ '|' :: formatF (q2 amt) ++ '|' :: canonText (some r1))
    ∧ dedupeKey hash d n1 amt r1 = dedupeKey hash d n2 amt r2 := by
  constructor
  · rfl
  · unfold dedupeKey dedupePayload
    rw [canonText_eq_of_split_eq hn, canonText_eq_of_lower_eq hr]

theorem C3_witness :
    dedupeKey (fun s => s) 1 "A   B".toList 5 "Ref".toList
      = dedupeKey (fun s => s) 1 "A B".toList 5 "REF".toList :=
  (C3_dedupe_key_stability (fun s => s) 1 5 "A   B".toList "A B".toList
    "Ref".toList "REF".toList (by decide) (by decide)).2

/-- C7: the signed amount of a parsed CSV row is the credit value when
present; otherwise minus the debit value when present; otherwise, when a
combined type and amount pair is present, the amount with CR positive and DR
negative; otherwise zero — always quantized to two decimals. -/
theorem C7_signed_amount_derivation (toDec : Str → Option ℚ)
    (credit0 debit0 : Option ℚ) (av tv : Option Str) :
    (∀ c, credit0 = some c →
        (deriveSigned toDec credit0 debit0 av tv).2.2 = q2 c)
    ∧ (∀ d, credit0 = none → debit0 = some d →
        (deriveSigned toDec credit0 debit0 av tv).2.2 = q2 (0 - d))
    ∧ (credit0 = none → debit0 = none → av.isSome → tv.isSome →
        ((pnorm tv = "cr".toList ∨ pnorm tv = "credit".toList →
           (deriveSigned toDec credit0 debit0 av tv).2.2
             = q2 ((toDec (av.getD [])).getD 0))
         ∧ (pnorm tv = "dr".toList ∨ pnorm tv = "debit".toList →
           (deriveSigned toDec credit0 debit0 av tv).2.2
             = q2 (0 - (toDec (av.getD [])).getD 0))
         ∧ (¬(pnorm tv = "cr".toList ∨ pnorm tv = "credit".toList) →
            ¬(pnorm tv = "dr".toList ∨ pnorm tv = "debit".toList) →
           (deriveSigned toDec credit0 debit0 av tv).2.2 = q2 0)))
    ∧ (credit0 = none → debit0 = none → (av = none ∨ tv = none) →
        (deriveSigned toDec credit0 debit0 av tv).2.2 = q2 0)
    ∧ IsMoney (deriveSigned toDec credit0 debit0 av tv).2.2 := by
  refine ⟨?_, ?_, ?_, ?_, ?_⟩
  · intro c hc
    subst hc
    simp [deriveSigned]
  · intro d hc hd
    subst hc
    subst hd
    simp [deriveSigned]
  · intro hc hd hav htv
    subst hc
    subst hd
    rcases Option.isSome_iff_exists.mp hav with ⟨a, ha⟩
    rcases Option.isSome_iff_exists.mp htv with ⟨t, ht⟩
    subst ha
    subst ht
    refine ⟨?_, ?_, ?_⟩
    · intro hcr
      simp only [deriveSigned, Option.isNone_none, Option.isSome_some,
        Bool.and_self, if_pos hcr]
      simp
    · intro hdr
      have hncr : ¬(pnorm (some t) = "cr".toList ∨ pnorm (some t) = "credit".toList) := by
        rcases hdr with h | h <;> rw [h] <;> decide
      simp only [deriveSigned, Option.isNone_none, Option.isSome_some,
        Bool.and_self, if_neg hncr, if_pos hdr]
      simp
    · intro hncr hndr
      simp only [deriveSigned, Option.isNone_none, Option.isSome_some,
        Bool.and_self, if_neg hncr, if_neg hndr]
      simp
  · intro hc hd hnone
    subst hc
    subst hd
    rcases hnone with h | h <;> subst h <;> simp [deriveSigned]
  · exact isMoney_q2 _

theorem C7_witness :
    (deriveSigned (fun _ => none) (some 5) none none none).2.2 = q2 5 :=
  (C7_signed_amount_derivation (fun _ => none) (some 5) none none none).1 5 rfl

lemma processUpload_reject (hash : Str → Str) (xref : Str → Option Str)
    (prevBal : Option ℚ) (existing : List Str) (parsed : List PRow) (errors : ℕ)
    (h : ((continuityAndOpening parsed).1 &&
        prevBalanceMatch prevBal (continuityAndOpening parsed).2.2
          (continuityAndOpening parsed).2.1) = false) :
    processUpload hash xref prevBal existing parsed errors =
      ⟨false, 0, 0, errors + 1, (continuityAndOpening parsed).1,
       prevBalanceMatch prevBal (continuityAndOpening parsed).2.2
         (continuityAndOpening parsed).2.1,
       "Invalid".toList, (continuityAndOpening parsed).2.1,
       (if (continuityAndOpening parsed).1 then [] else [reasonContinuity])
         ++ (if prevBalanceMatch prevBal (continuityAndOpening parsed).2.2
               (continuityAndOpening parsed).2.1 then [] else [reasonPrevBalance]),
       [], []⟩ := by
  unfold processUpload
  simp only [h, Bool.false_eq_true, if_false]

/-- C5: when continuity fails in both orders, or the detected opening balance
differs (after quantization) from the most recently persisted balance, the
upload is a whole-file hard rejection: nothing is persisted, the batch is
saved with zero uploaded rows and the two continuity flags, and the response
carries the diagnostic reasons and the opening balance detected in the
file. -/
theorem C5_hard_rejection (hash : Str → Str) (xref : Str → Option Str)
    (prevBal : Option ℚ) (existing : List Str) (parsed : List PRow) (errors : ℕ)
    (h : (continuityAndOpening parsed).1 = false
       ∨ ((continuityAndOpening parsed).2.2 ≠ [] ∧ ∃ pb, prevBal = some pb ∧
            q2 pb ≠ q2 ((continuityAndOpening parsed).2.1.getD 0))) :
    (processUpload hash xref prevBal existing parsed errors).ok = false
    ∧ (processUpload hash xref prevBal existing parsed errors).inserted = []
    ∧ (processUpload hash xref prevBal existing parsed errors).uploaded_count = 0
    ∧ (processUpload hash xref prevBal existing parsed errors).skipped_count = 0
    ∧ (processUpload hash xref prevBal existing parsed errors).errors_count = errors + 1
    ∧ (processUpload hash xref prevBal existing parsed errors).balance_continuity_in_file
        = (continuityAndOpening parsed).1
    ∧ (processUpload hash xref prevBal existing parsed errors).previous_ending_balance_match
        = prevBalanceMatch prevBal (continuityAndOpening parsed).2.2
            (continuityAndOpening parsed).2.1
    ∧ (processUpload hash xref prevBal existing parsed errors).balance_continuity
        = "Invalid".toList
    ∧ (processUpload hash xref prevBal existing parsed errors).opening_balance_in_file
        = (continuityAndOpening parsed).2.1
    ∧ ((continuityAndOpening parsed).1 = false →
        reasonContinuity ∈ (processUpload hash xref prevBal existing parsed errors).reasons)
    ∧ (prevBalanceMatch prevBal (continuityAndOpening parsed).2.2
          (continuityAndOpening parsed).2.1 = false →
        reasonPrevBalance ∈ (processUpload hash xref prevBal existing parsed errors).reasons)
    ∧ (processUpload hash xref prevBal existing parsed errors).reasons ≠ [] := by
  have hcond : ((continuityAndOpening parsed).1 &&
      prevBalanceMatch prevBal (continuityAndOpening parsed).2.2
        (continuityAndOpening parsed).2.1) = false := by
    rcases h with h1 | ⟨hne, pb, hpb, hneq⟩
    · simp [h1]
    · have hpm : prevBalanceMatch prevBal (continuityAndOpening parsed).2.2
          (continuityAndOpening parsed).2.1 = false := by
        unfold prevBalanceMatch
        rw [if_neg (by simpa [List.isEmpty_iff] using hne), hpb]
        simp [hneq]
      simp [hpm]
  rw [processUpload_reject hash xref prevBal existing parsed errors hcond]
  refine ⟨rfl, rfl, rfl, rfl, rfl, rfl, rfl, rfl, rfl, ?_, ?_, ?_⟩
  · intro h1
    simp [h1]
  · intro h1
    simp [h1]
  · rcases Bool.and_eq_false_iff.mp hcond with h1 | h1 <;> simp [h1]

theorem C5_witness :
    (processUpload (fun s => s) (fun _ => none) none []
      [(⟨1, [], some 1, none, 10, none, 1⟩ : PRow),
       ⟨2, [], some 1, none, 0, none, 1⟩] 0).ok = false
    ∧ (processUpload (fun s => s) (fun _ => none) none []
      [(⟨1, [], some 1, none, 10, none, 1⟩ : PRow),
       ⟨2, [], some 1, none, 0, none, 1⟩] 0).uploaded_count = 0 := by
  have h := C5_hard_rejection (fun s => s) (fun _ => none) none []
    [(⟨1, [], some 1, none, 10, none, 1⟩ : PRow),
     ⟨2, [], some 1, none, 0, none, 1⟩] 0
    (Or.inl (by norm_num [continuityAndOpening, checkContinuity, contLoop, q2, rhu]))
  exact ⟨h.1, h.2.2.1⟩

/-- C10: an upload whose parsed row list is empty passes the continuity check
with opening balance `None`, skips the previous-ending-balance comparison
entirely (whatever is persisted for the account), and completes as a success
response with continuity Valid, uploaded count zero, and only the per-row
parse failures in the error count. -/
theorem C10_empty_parsed_rows (hash : Str → Str) (xref : Str → Option Str)
    (prevBal : Option ℚ) (existing : List Str) (errors : ℕ) :
    processUpload hash xref prevBal existing [] errors =
      ⟨true, 0, 0, errors, true, true, "Valid".toList, none, [], [], []⟩
    ∧ checkContinuity [] = (true, none)
    ∧ prevBalanceMatch prevBal [] none = true :=
  ⟨rfl, rfl, rfl⟩

lemma scan_cond_iff (existing seen ks : List Str) :
    ((ks.any fun k => existing.contains k) || (ks.any fun k => seen.contains k)) = true
      ↔ ∃ k ∈ ks, k ∈ existing ∨ k ∈ seen := by
  simp only [Bool.or_eq_true, List.any_eq_true]
  constructor
  · rintro (⟨k, hk, h⟩ | ⟨k, hk, h⟩)
    · exact ⟨k, hk, Or.inl (by simpa using h)⟩
    · exact ⟨k, hk, Or.inr (by simpa using h)⟩
  · rintro ⟨k, hk, h | h⟩
    · exact Or.inl ⟨k, hk, by simpa using h⟩
    · exact Or.inr ⟨k, hk, by simpa using h⟩

/-- Key set accumulated by the pre-filter loop over a row list: only kept
rows contribute their keys. -/
def seenAfter (hash : Str → Str) (xref : Str → Option Str) (existing : List Str) :
    List PRow → List Str → List Str
  | [], seen => seen
  | r :: rest, seen =>
    let ks := rowKeys hash xref r
    if (ks.any fun k => existing.contains k) || (ks.any fun k => seen.contains k) then
      seenAfter hash xref existing rest seen
    else
      seenAfter hash xref existing rest (seen ++ ks)

lemma dedupeScan_map_snd (hash : Str → Str) (xref : Str → Option Str) (existing : List Str) :
    ∀ (rows : List PRow) (seen : List Str),
      (dedupeScan hash xref existing rows seen).map Prod.snd = rows := by
  intro rows
  induction rows with
  | nil => intro seen; rfl
  | cons r rest ih =>
    intro seen
    rw [dedupeScan]
    by_cases hc : ((rowKeys hash xref r).any (fun k => existing.contains k)
        || (rowKeys hash xref r).any (fun k => seen.contains k)) = true
    · simp only [if_pos hc, List.map_cons]
      rw [ih]
    · simp only [if_neg hc, List.map_cons]
      rw [ih]

lemma dedupeScan_length (hash : Str → Str) (xref : Str → Option Str) (existing : List Str)
    (rows : List PRow) (seen : List Str) :
    (dedupeScan hash xref existing rows seen).length = rows.length := by
  have h := dedupeScan_map_snd hash xref existing rows seen
  calc (dedupeScan hash xref existing rows seen).length
      = ((dedupeScan hash xref existing rows seen).map Prod.snd).length :=
        (List.length_map _ _).symm
    _ = rows.length := by rw [h]

lemma dedupeScan_append (hash : Str → Str) (xref : Str → Option Str) (existing : List Str) :
    ∀ (l1 l2 : List PRow) (seen : List Str),
      dedupeScan hash xref existing (l1 ++ l2) seen
        = dedupeScan hash xref existing l1 seen
          ++ dedupeScan hash xref existing l2 (seenAfter hash xref existing l1 seen) := by
  intro l1
  induction l1 with
  | nil => intro l2 seen; rfl
  | cons r rest ih =>
    intro l2 seen
    rw [List.cons_append, dedupeScan, dedupeScan, seenAfter]
    by_cases hc : ((rowKeys hash xref r).any (fun k => existing.contains k)
        || (rowKeys hash xref r).any (fun k => seen.contains k)) = true
    · simp only [if_pos hc, List.cons_append]
      rw [ih]
    · simp only [if_neg hc, List.cons_append]
      rw [ih]

lemma seenAfter_eq (hash : Str → Str) (xref : Str → Option Str) (existing : List Str) :
    ∀ (rows : List PRow) (seen : List Str),
      seenAfter hash xref existing rows seen
        = seen ++ ((keptOf (dedupeScan hash xref existing rows seen)).map
            (rowKeys hash xref)).flatten := by
  intro rows
  induction rows with
  | nil => intro seen; simp [seenAfter, dedupeScan, keptOf]
  | cons r rest ih =>
    intro seen
    rw [seenAfter, dedupeScan]
    by_cases hc : ((rowKeys hash xref r).any (fun k => existing.contains k)
        || (rowKeys hash xref r).any (fun k => seen.contains k)) = true
    · simp only [if_pos hc]
      rw [ih]
      simp [keptOf]
    · simp only [if_neg hc]
      rw [ih]
      simp [keptOf, List.append_assoc]

lemma kept_spec (hash : Str → Str) (xref : Str → Option Str) (existing : List Str) :
    ∀ (rows : List PRow) (seen : List Str),
      List.Pairwise (fun a b => ∀ k ∈ rowKeys hash xref b, k ∉ rowKeys hash xref a)
        (keptOf (dedupeScan hash xref existing rows seen))
      ∧ ∀ r ∈ keptOf (dedupeScan hash xref existing rows seen),
          ∀ k ∈ rowKeys hash xref r, k ∉ existing ∧ k ∉ seen := by
  intro rows
  induction rows with
  | nil => intro seen; exact ⟨List.Pairwise.nil, by simp [dedupeScan, keptOf]⟩
  | cons r rest ih =>
    intro seen
    rw [dedupeScan]
    by_cases hc : ((rowKeys hash xref r).any (fun k => existing.contains k)
        || (rowKeys hash xref r).any (fun k => seen.contains k)) = true
    · simp only [if_pos hc]
      have hk : keptOf ((false, r) :: dedupeScan hash xref existing rest seen)
          = keptOf (dedupeScan hash xref existing rest seen) := by
        simp [keptOf]
      rw [hk]
      exact ih seen
    · simp only [if_neg hc]
      have hnot : ∀ k ∈ rowKeys hash xref r, k ∉ existing ∧ k ∉ seen := by
        intro k hk
        by_contra hcon
        apply hc
        rw [scan_cond_iff]
        rcases not_and_or.mp hcon with h | h
        · exact ⟨k, hk, Or.inl (not_not.mp h)⟩
        · exact ⟨k, hk, Or.inr (not_not.mp h)⟩
      have hk2 : keptOf ((true, r) :: dedupeScan hash xref existing rest
          (seen ++ rowKeys hash xref r))
          = r :: keptOf (dedupeScan hash xref existing rest (seen ++ rowKeys hash xref r)) := by
        simp [keptOf]
      rw [hk2]
      rcases ih (seen ++ rowKeys hash xref r) with ⟨ihp, ihm⟩
      refine ⟨List.Pairwise.cons ?_ ihp, ?_⟩
      · intro b hb k hkb
        have := (ihm b hb k hkb).2
        intro hkr
        exact this (List.mem_append_right _ hkr)
      · intro x hx k hk
        rcases List.mem_cons.mp hx with rfl | hx2
        · exact hnot k hk
        · have := ihm x hx2 k hk
          exact ⟨this.1, fun hs => this.2 (List.mem_append_left _ hs)⟩

lemma scan_all_kept (hash : Str → Str) (xref : Str → Option Str) (existing : List Str) :
    ∀ (rows : List PRow) (seen : List Str),
      (∀ r ∈ rows, ∀ k ∈ rowKeys hash xref r, k ∉ existing ∧ k ∉ seen) →
      List.Pairwise (fun a b => ∀ k ∈ rowKeys hash xref b, k ∉ rowKeys hash xref a) rows →
      dedupeScan hash xref existing rows seen = rows.map (fun r => (true, r)) := by
  intro rows
  induction rows with
  | nil => intro seen _ _; rfl
  | cons r rest ih =>
    intro seen hfresh hpair
    have hc : ¬ ((rowKeys hash xref r).any (fun k => existing.contains k)
        || (rowKeys hash xref r).any (fun k => seen.contains k)) = true := by
      intro hcon
      rcases (scan_cond_iff existing seen _).mp hcon with ⟨k, hk, h | h⟩
      · exact (hfresh r (by simp) k hk).1 h
      · exact (hfresh r (by simp) k hk).2 h
    rw [dedupeScan]
    simp only [if_neg hc, List.map_cons]
    rcases List.pairwise_cons.mp hpair with ⟨hhd, htl⟩
    have hside : ∀ x ∈ rest, ∀ k ∈ rowKeys hash xref x,
        k ∉ existing ∧ k ∉ seen ++ rowKeys hash xref r := by
      intro x hx k hk
      refine ⟨(hfresh x (by simp [hx]) k hk).1, ?_⟩
      intro hmem
      rcases List.mem_append.mp hmem with h | h
      · exact (hfresh x (by simp [hx]) k hk).2 h
      · exact hhd x hx k hk h
    rw [ih (seen ++ rowKeys hash xref r) hside htl]

lemma scan_all_dup (hash : Str → Str) (xref : Str → Option Str) (existing : List Str) :
    ∀ (rows : List PRow) (seen : List Str),
      (∀ r ∈ rows, ∃ k ∈ rowKeys hash xref r, k ∈ existing) →
      dedupeScan hash xref existing rows seen = rows.map (fun r => (false, r)) := by
  intro rows
  induction rows with
  | nil => intro seen _; rfl
  | cons r rest ih =>
    intro seen hdup
    have hc : ((rowKeys hash xref r).any (fun k => existing.contains k)
        || (rowKeys hash xref r).any (fun k => seen.contains k)) = true := by
      rw [scan_cond_iff]
      rcases hdup r (by simp) with ⟨k, hk, h⟩
      exact ⟨k, hk, Or.inl h⟩
    rw [dedupeScan]
    simp only [if_pos hc, List.map_cons]
    rw [ih seen (fun x hx => hdup x (by simp [hx]))]

lemma keptOf_map_true (rows : List PRow) : keptOf (rows.map (fun r => (true, r))) = rows := by
  induction rows with
  | nil => rfl
  | cons r rest ih =>
    simp only [List.map_cons, keptOf, List.filterMap_cons, if_pos rfl]
    simpa [keptOf] using ih

lemma keptOf_map_false (rows : List PRow) : keptOf (rows.map (fun r => (false, r))) = [] := by
  induction rows with
  | nil => rfl
  | cons r rest ih =>
    simp only [List.map_cons, keptOf, List.filterMap_cons]
    simp [keptOf] at ih
    simp [keptOf, ih]

lemma bulkCreate_all (existing : List Str) :
    ∀ (objs : List BankTxn) (added : List Str),
      (∀ o ∈ objs, o.dedupe_key ∉ existing ∧ o.dedupe_key ∉ added) →
      objs.Pairwise (fun a b => a.dedupe_key ≠ b.dedupe_key) →
      bulkCreate existing objs added = objs := by
  intro objs
  induction objs with
  | nil => intro added _ _; rfl
  | cons o rest ih =>
    intro added hfresh hpair
    have h1 := hfresh o (by simp)
    have hc2 : ¬ (existing.contains o.dedupe_key || added.contains o.dedupe_key) = true := by
      simp only [Bool.or_eq_true, not_or]
      constructor
      · intro hcon
        exact h1.1 (by simpa using hcon)
      · intro hcon
        exact h1.2 (by simpa using hcon)
    rw [bulkCreate]
    simp only [if_neg hc2]
    rcases List.pairwise_cons.mp hpair with ⟨hhd, htl⟩
    have hside : ∀ x ∈ rest, x.dedupe_key ∉ existing ∧ x.dedupe_key ∉ o.dedupe_key :: added := by
      intro x hx
      refine ⟨(hfresh x (by simp [hx])).1, ?_⟩
      intro hmem
      rcases List.mem_cons.mp hmem with h | h
      · exact hhd x hx h.symm
      · exact (hfresh x (by simp [hx])).2 h
    rw [ih (o.dedupe_key :: added) hside htl]

lemma mkBankTxn_key (hash : Str → Str) (xref : Str → Option Str) (r : PRow)
    (h : r.signed_amount = computeSignedAmount r.credit_amount r.debit_amount) :
    (mkBankTxn hash xref r).dedupe_key
      = dedupeKey hash r.transaction_date r.narration r.signed_amount (bestUtr xref r) := by
  unfold mkBankTxn
  rw [← h]

lemma continuityAndOpening_length (rows : List PRow) :
    (continuityAndOpening rows).2.2.length = rows.length := by
  unfold continuityAndOpening
  by_cases h1 : (checkContinuity rows).1 = true
  · simp [h1]
  · by_cases h2 : (checkContinuity rows.reverse).1 = true <;>
      simp [h1, h2, List.length_reverse]

lemma kept_skipped_partition : ∀ l : List (Bool × PRow),
    (keptOf l).length + (skippedOf l).length = l.length := by
  intro l
  induction l with
  | nil => rfl
  | cons p rest ih =>
    rcases p with ⟨b, r⟩
    cases b <;> simp [keptOf, skippedOf] at ih ⊢ <;> omega

lemma mem_keptOf_scan (hash : Str → Str) (xref : Str → Option Str) (existing : List Str)
    (rows : List PRow) (seen : List Str) (r : PRow)
    (h : r ∈ keptOf (dedupeScan hash xref existing rows seen)) : r ∈ rows := by
  rcases List.mem_filterMap.mp h with ⟨p, hp, heq⟩
  have hsnd : p.2 = r := by
    by_cases hb : p.1 = true
    · simpa [hb] using heq
    · simp [hb] at heq
  have : p.2 ∈ (dedupeScan hash xref existing rows seen).map Prod.snd :=
    List.mem_map_of_mem _ hp
  rw [dedupeScan_map_snd] at this
  rwa [hsnd] at this

lemma kMain_mem_rowKeys (hash : Str → Str) (xref : Str → Option Str) (r : PRow) :
    dedupeKey hash r.transaction_date r.narration r.signed_amount (bestUtr xref r)
      ∈ rowKeys hash xref r := by
  unfold rowKeys
  exact List.mem_cons_self _ _

lemma objs_fresh_and_distinct (hash : Str → Str) (xref : Str → Option Str)
    (existing : List Str) (used : List PRow)
    (hsig : ∀ r ∈ used, r.signed_amount
      = computeSignedAmount r.credit_amount r.debit_amount) :
    (∀ o ∈ (keptOf (dedupeScan hash xref existing used [])).map (mkBankTxn hash xref),
        o.dedupe_key ∉ existing ∧ o.dedupe_key ∉ ([] : List Str))
    ∧ ((keptOf (dedupeScan hash xref existing used [])).map (mkBankTxn hash xref)).Pairwise
        (fun a b => a.dedupe_key ≠ b.dedupe_key) := by
  rcases kept_spec hash xref existing used [] with ⟨hpair, hmem⟩
  constructor
  · intro o ho
    rcases List.mem_map.mp ho with ⟨r, hr, rfl⟩
    have hru : r ∈ used := mem_keptOf_scan hash xref existing used [] r hr
    rw [mkBankTxn_key hash xref r (hsig r hru)]
    exact ⟨(hmem r hr _ (kMain_mem_rowKeys hash xref r)).1, by simp⟩
  · rw [List.pairwise_map]
    refine hpair.imp_of_mem ?_
    intro a b ha hb hdisj
    have hau : a ∈ used := mem_keptOf_scan hash xref existing used [] a ha
    have hbu : b ∈ used := mem_keptOf_scan hash xref existing used [] b hb
    rw [mkBankTxn_key hash xref a (hsig a hau), mkBankTxn_key hash xref b (hsig b hbu)]
    intro heq
    exact hdisj _ (kMain_mem_rowKeys hash xref b) (heq ▸ kMain_mem_rowKeys hash xref a)

lemma processUpload_success (hash : Str → Str) (xref : Str → Option Str)
    (prevBal : Option ℚ) (existing : List Str) (parsed : List PRow) (errors : ℕ)
    (h : ((continuityAndOpening parsed).1 && prevBalanceMatch prevBal
        (continuityAndOpening parsed).2.2 (continuityAndOpening parsed).2.1) = true) :
    processUpload hash xref prevBal existing parsed errors =
      ⟨true,
       (bulkCreate existing ((keptOf (dedupeScan hash xref existing
           (continuityAndOpening parsed).2.2 [])).map (mkBankTxn hash xref)) []).length,
       ((continuityAndOpening parsed).2.2.length
           - (keptOf (dedupeScan hash xref existing
               (continuityAndOpening parsed).2.2 [])).length)
         + (((keptOf (dedupeScan hash xref existing
               (continuityAndOpening parsed).2.2 [])).map (mkBankTxn hash xref)).length
             - (bulkCreate existing ((keptOf (dedupeScan hash xref existing
                 (continuityAndOpening parsed).2.2 [])).map (mkBankTxn hash xref)) []).length),
       errors, (continuityAndOpening parsed).1,
       prevBalanceMatch prevBal (continuityAndOpening parsed).2.2
         (continuityAndOpening parsed).2.1,
       "Valid".toList, none, [],
       skippedOf (dedupeScan hash xref existing (continuityAndOpening parsed).2.2 []),
       bulkCreate existing ((keptOf (dedupeScan hash xref existing
           (continuityAndOpening parsed).2.2 [])).map (mkBankTxn hash xref)) []⟩ := by
  unfold processUpload
  simp only [h, if_true]

/-- C4 (amended): after continuity passes, a row is skipped as a duplicate
iff one of its two dedupe keys is already stored for the account or among
the keys of earlier kept rows of the same file; duplicates are counted in
the skipped count, never in the error count; uploading the same valid N-row
file (N distinct fresh transactions) twice gives uploaded N the first time,
and — when the second call passes the previous-balance check — uploaded 0
and skipped N the second time. -/
theorem C4_dedupe_skip_and_reupload (hash : Str → Str) (xref : Str → Option Str) :
    (∀ (existing : List Str) (pre : List PRow) (r : PRow) (post : List PRow),
      ((dedupeScan hash xref existing (pre ++ r :: post) []).drop pre.length).head?
        = some (decide (¬ ∃ k ∈ rowKeys hash xref r, k ∈ existing
            ∨ ∃ q ∈ keptOf (dedupeScan hash xref existing pre []),
                k ∈ rowKeys hash xref q), r))
    ∧ (∀ (prevBal : Option ℚ) (existing : List Str) (parsed : List PRow) (errors : ℕ),
        (∀ r ∈ (continuityAndOpening parsed).2.2,
          r.signed_amount = computeSignedAmount r.credit_amount r.debit_amount) →
        ((continuityAndOpening parsed).1 && prevBalanceMatch prevBal
          (continuityAndOpening parsed).2.2 (continuityAndOpening parsed).2.1) = true →
        (processUpload hash xref prevBal existing parsed errors).errors_count = errors
        ∧ (processUpload hash xref prevBal existing parsed errors).uploaded_count
            = (keptOf (dedupeScan hash xref existing
                (continuityAndOpening parsed).2.2 [])).length
        ∧ (processUpload hash xref prevBal existing parsed errors).skipped_count
            = (skippedOf (dedupeScan hash xref existing
                (continuityAndOpening parsed).2.2 [])).length
        ∧ (processUpload hash xref prevBal existing parsed errors).uploaded_count
            + (processUpload hash xref prevBal existing parsed errors).skipped_count
            = parsed.length)
    ∧ (∀ (prevBal prevBal2 : Option ℚ) (existing existing2 : List Str)
        (parsed : List PRow) (errors errors2 : ℕ),
        (∀ r ∈ (continuityAndOpening parsed).2.2,
          r.signed_amount = computeSignedAmount r.credit_amount r.debit_amount) →
        (∀ r ∈ (continuityAndOpening parsed).2.2,
          ∀ k ∈ rowKeys hash xref r, k ∉ existing) →
        List.Pairwise (fun a b => ∀ k ∈ rowKeys hash xref b, k ∉ rowKeys hash xref a)
          (continuityAndOpening parsed).2.2 →
        ((continuityAndOpening parsed).1 && prevBalanceMatch prevBal
          (continuityAndOpening parsed).2.2 (continuityAndOpening parsed).2.1) = true →
        ((continuityAndOpening parsed).1 && prevBalanceMatch prevBal2
          (continuityAndOpening parsed).2.2 (continuityAndOpening parsed).2.1) = true →
        existing2 = existing
          ++ ((processUpload hash xref prevBal existing parsed errors).inserted.map
              BankTxn.dedupe_key) →
        (processUpload hash xref prevBal existing parsed errors).uploaded_count
            = parsed.length
        ∧ (processUpload hash xref prevBal existing parsed errors).skipped_count = 0
        ∧ (processUpload hash xref prevBal2 existing2 parsed errors2).uploaded_count = 0
        ∧ (processUpload hash xref prevBal2 existing2 parsed errors2).skipped_count
            = parsed.length) := by
  refine ⟨?_, ?_, ?_⟩
  · -- (a) skip-iff characterization
    intro existing pre r post
    rw [dedupeScan_append]
    have hlen : (dedupeScan hash xref existing pre []).length = pre.length :=
      dedupeScan_length hash xref existing pre []
    rw [show (dedupeScan hash xref existing pre []
        ++ dedupeScan hash xref existing (r :: post)
            (seenAfter hash xref existing pre [])).drop pre.length
      = dedupeScan hash xref existing (r :: post)
          (seenAfter hash xref existing pre []) by
        rw [← hlen, List.drop_left]]
    rw [dedupeScan]
    have hiff : ((rowKeys hash xref r).any (fun k => existing.contains k)
        || (rowKeys hash xref r).any
            (fun k => (seenAfter hash xref existing pre []).contains k)) = true
        ↔ (∃ k ∈ rowKeys hash xref r, k ∈ existing
            ∨ ∃ q ∈ keptOf (dedupeScan hash xref existing pre []),
                k ∈ rowKeys hash xref q) := by
      rw [scan_cond_iff]
      constructor
      · rintro ⟨k, hk, h | h⟩
        · exact ⟨k, hk, Or.inl h⟩
        · rw [seenAfter_eq] at h
          simp only [List.nil_append, List.mem_flatten, List.mem_map] at h
          rcases h with ⟨l, ⟨q, hq, rfl⟩, hkl⟩
          exact ⟨k, hk, Or.inr ⟨q, hq, hkl⟩⟩
      · rintro ⟨k, hk, h | ⟨q, hq, hkq⟩⟩
        · exact ⟨k, hk, Or.inl h⟩
        · refine ⟨k, hk, Or.inr ?_⟩
          rw [seenAfter_eq]
          simp only [List.nil_append, List.mem_flatten, List.mem_map]
          exact ⟨rowKeys hash xref q, ⟨q, hq, rfl⟩, hkq⟩
    by_cases hdup : (∃ k ∈ rowKeys hash xref r, k ∈ existing
        ∨ ∃ q ∈ keptOf (dedupeScan hash xref existing pre []), k ∈ rowKeys hash xref q)
    · rw [if_pos (hiff.mpr hdup)]
      simp [hdup]
    · rw [if_neg (fun hcon => hdup (hiff.mp hcon))]
      simp [hdup]
  · -- (b) duplicate counting
    intro prevBal existing parsed errors hsig hok
    rw [processUpload_success hash xref prevBal existing parsed errors hok]
    rcases objs_fresh_and_distinct hash xref existing (continuityAndOpening parsed).2.2 hsig
      with ⟨hfresh, hdist⟩
    have hins : bulkCreate existing
        ((keptOf (dedupeScan hash xref existing (continuityAndOpening parsed).2.2 [])).map
          (mkBankTxn hash xref)) []
        = (keptOf (dedupeScan hash xref existing
            (continuityAndOpening parsed).2.2 [])).map (mkBankTxn hash xref) :=
      bulkCreate_all existing _ [] hfresh hdist
    have hpart := kept_skipped_partition
      (dedupeScan hash xref existing (continuityAndOpening parsed).2.2 [])
    have hslen := dedupeScan_length hash xref existing (continuityAndOpening parsed).2.2 []
    have hulen := continuityAndOpening_length parsed
    refine ⟨rfl, ?_, ?_, ?_⟩
    · simp [hins]
    · simp only [hins, List.length_map]
      omega
    · simp only [hins, List.length_map]
      omega
  · -- (c) first and second upload of the same file
    intro prevBal prevBal2 existing existing2 parsed errors errors2
      hsig hfresh hdisj hok1 hok2 hex2
    have hscan1 : dedupeScan hash xref existing (continuityAndOpening parsed).2.2 []
        = (continuityAndOpening parsed).2.2.map (fun r => (true, r)) := by
      refine scan_all_kept hash xref existing _ [] ?_ hdisj
      intro r hr k hk
      exact ⟨hfresh r hr k hk, by simp⟩
    have hkept1 : keptOf (dedupeScan hash xref existing
        (continuityAndOpening parsed).2.2 []) = (continuityAndOpening parsed).2.2 := by
      rw [hscan1, keptOf_map_true]
    rcases objs_fresh_and_distinct hash xref existing (continuityAndOpening parsed).2.2 hsig
      with ⟨hfr1, hdi1⟩
    have hins1 : bulkCreate existing
        ((keptOf (dedupeScan hash xref existing (continuityAndOpening parsed).2.2 [])).map
          (mkBankTxn hash xref)) []
        = (keptOf (dedupeScan hash xref existing
            (continuityAndOpening parsed).2.2 [])).map (mkBankTxn hash xref) :=
      bulkCreate_all existing _ [] hfr1 hdi1
    have hulen := continuityAndOpening_length parsed
    have hins1b := hins1
    rw [hkept1] at hins1b
    have hres1 := processUpload_success hash xref prevBal existing parsed errors hok1
    have h1up : (processUpload hash xref prevBal existing parsed errors).uploaded_count
        = parsed.length := by
      rw [hres1]
      simp only [hkept1, hins1b, List.length_map]
      exact hulen
    have h1sk : (processUpload hash xref prevBal existing parsed errors).skipped_count = 0 := by
      rw [hres1]
      simp only [hkept1, hins1b, List.length_map]
      omega
    have hinskeys : (processUpload hash xref prevBal existing parsed errors).inserted.map
        BankTxn.dedupe_key
        = (continuityAndOpening parsed).2.2.map
            (fun r => (mkBankTxn hash xref r).dedupe_key) := by
      rw [hres1]
      simp only [hkept1, hins1b]
      rw [List.map_map]
      rfl
    have hdup2 : ∀ r ∈ (continuityAndOpening parsed).2.2,
        ∃ k ∈ rowKeys hash xref r, k ∈ existing2 := by
      intro r hr
      refine ⟨dedupeKey hash r.transaction_date r.narration r.signed_amount (bestUtr xref r),
        kMain_mem_rowKeys hash xref r, ?_⟩
      rw [hex2, hinskeys]
      refine List.mem_append_right _ ?_
      rw [← mkBankTxn_key hash xref r (hsig r hr)]
      exact List.mem_map_of_mem _ hr
    have hscan2 : dedupeScan hash xref existing2 (continuityAndOpening parsed).2.2 []
        = (continuityAndOpening parsed).2.2.map (fun r => (false, r)) :=
      scan_all_dup hash xref existing2 _ [] hdup2
    have hres2 := processUpload_success hash xref prevBal2 existing2 parsed errors2 hok2
    refine ⟨h1up, h1sk, ?_, ?_⟩
    · rw [hres2]
      simp [hscan2, keptOf_map_false, bulkCreate]
    · rw [hres2]
      simp only [hscan2, keptOf_map_false, List.map_nil, List.length_nil, bulkCreate]
      have hsk2 : (skippedOf ((continuityAndOpening parsed).2.2.map
          (fun r => (false, r)))).length = (continuityAndOpening parsed).2.2.length := by
        have := kept_skipped_partition ((continuityAndOpening parsed).2.2.map
          (fun r => (false, r)))
        rw [keptOf_map_false] at this
        simpa using this
      omega

/-- Single parsed row of a one-row statement used to exercise the upload
pipeline on concrete data: credit 100, stated balance 100, opening 0. -/
def c4row : PRow := ⟨1, "a".toList, some 100, none, 100, none, 100⟩

lemma c4_co : continuityAndOpening [c4row] = (true, some 0, [c4row]) := by
  norm_num [continuityAndOpening, checkContinuity, contLoop, c4row, q2, rhu]

lemma c4_cond1 : ((continuityAndOpening [c4row]).1 && prevBalanceMatch none
    (continuityAndOpening [c4row]).2.2 (continuityAndOpening [c4row]).2.1) = true := by
  rw [c4_co]
  rfl

lemma c4_first : processUpload (fun s => s) (fun _ => none) none [] [c4row] 0 =
    ⟨true, 1, 0, 0, true, true, "Valid".toList, none, [],
     [], [mkBankTxn (fun s => s) (fun _ => none) c4row]⟩ := by
  rw [processUpload_success (fun s => s) (fun _ => none) none [] [c4row] 0 c4_cond1]
  rw [c4_co]
  rfl

/-- C4 counterexample: re-uploading the same valid one-row file does not
produce `skipped_count = N`; the second call is hard-rejected by the
previous-ending-balance comparison (the opening balance of the file no
longer matches the balance persisted by the first call), with uploaded 0
and skipped 0. -/
theorem C4_counterexample :
    (processUpload (fun s => s) (fun _ => none) none [] [c4row] 0).uploaded_count = 1
    ∧ (processUpload (fun s => s) (fun _ => none) none [] [c4row] 0).inserted.map
        BankTxn.balance_amount = [100]
    ∧ (processUpload (fun s => s) (fun _ => none) (some 100)
        ((processUpload (fun s => s) (fun _ => none) none [] [c4row] 0).inserted.map
          BankTxn.dedupe_key) [c4row] 0).ok = false
    ∧ (processUpload (fun s => s) (fun _ => none) (some 100)
        ((processUpload (fun s => s) (fun _ => none) none [] [c4row] 0).inserted.map
          BankTxn.dedupe_key) [c4row] 0).uploaded_count = 0
    ∧ (processUpload (fun s => s) (fun _ => none) (some 100)
        ((processUpload (fun s => s) (fun _ => none) none [] [c4row] 0).inserted.map
          BankTxn.dedupe_key) [c4row] 0).skipped_count = 0
    ∧ (processUpload (fun s => s) (fun _ => none) (some 100)
        ((processUpload (fun s => s) (fun _ => none) none [] [c4row] 0).inserted.map
          BankTxn.dedupe_key) [c4row] 0).skipped_count ≠ 1 := by
  have hcond2 : ((continuityAndOpening [c4row]).1 && prevBalanceMatch (some 100)
      (continuityAndOpening [c4row]).2.2 (continuityAndOpening [c4row]).2.1) = false := by
    rw [c4_co]
    norm_num [prevBalanceMatch, q2, rhu]
  have hrej := processUpload_reject (fun s => s) (fun _ => none) (some 100)
    ((processUpload (fun s => s) (fun _ => none) none [] [c4row] 0).inserted.map
      BankTxn.dedupe_key) [c4row] 0 hcond2
  refine ⟨?_, ?_, ?_, ?_, ?_, ?_⟩
  · rw [c4_first]
  · rw [c4_first]
    rfl
  · rw [hrej]
  · rw [hrej]
  · rw [hrej]
  · rw [hrej]
    simp

theorem C4_witness :
    (processUpload (fun s => s) (fun _ => none) none [] [c4row] 5).errors_count = 5
    ∧ (processUpload (fun s => s) (fun _ => none) none [] [c4row] 5).uploaded_count
        + (processUpload (fun s => s) (fun _ => none) none [] [c4row] 5).skipped_count = 1 := by
  have h := (C4_dedupe_skip_and_reupload (fun s => s) (fun _ => none)).2.1 none [] [c4row] 5
    (by
      rw [c4_co]
      intro r hr
      simp only [List.mem_singleton] at hr
      subst hr
      norm_num [c4row, computeSignedAmount, q2, rhu])
    c4_cond1
  exact ⟨h.1, h.2.2.2⟩

/-- Embeds `_dec` from `analytics/services/ledger.py`: a missing or null
amount is treated as zero, never an error. -/
def decQ (x : Option ℚ) : ℚ := x.getD 0

/-- Source record as the reconciler sees it, across the three structurally
different schemas (`tx_classify`, `cash_ledger`, `bank_uploads`).  Duck-typed
attribute access (`hasattr`/`getattr`) is modelled with `Option` fields
(`none` = attribute absent); the schema-introspection steps that resolve a
foreign key to a display name (`_map_common` and `_name_from`), a date field
name (`_pick_date_field`), and the direction-field scan of
`_resolve_amount_pair` step 4b are modelled by their resolved values
(`entity`..`project`, `date_val`, `dirHints`, `ttype_name`). -/
structure SrcObj where
  date_val : Option ℤ := none
  txn_type : Option Str := none
  remarks : Option Str := none
  entity : Option Str := none
  cost_centre : Option Str := none
  contract : Option Str := none
  asset : Option Str := none
  project : Option Str := none
  entity_id : Option ℕ := none
  project_id : Option ℕ := none
  apartment_id : Option ℕ := none
  credit : Option ℚ := none
  debit : Option ℚ := none
  credit_amount : Option ℚ := none
  debit_amount : Option ℚ := none
  deposit : Option ℚ := none
  withdrawal : Option ℚ := none
  signed_amount : Option ℚ := none
  amount : Option ℚ := none
  is_credit : Option Bool := none
  is_debit : Option Bool := none
  dirHints : List Str := []
  ttype_name : Str := []
deriving DecidableEq

/-- Debit keywords of `_resolve_amount_pair` step 4c (`ledger.py`). -/
def DEBIT_KEYWORDS : List Str :=
  ["paid", "payment", "payout", "to landlord", "rent out", "landlord payout",
   "rent paid", "refund paid", "withdraw", "withdrawal", "expense", "expenses",
   "maint", "maintenance", "interior", "m & i", "repair", "repairs",
   "service charge", "bank charge", "bank charges", "charge", "charges",
   "fee", "fees", "commission", "interest paid", "penalty", "fine",
   "salary", "wages", "tds", "tax", "gst"].map String.toList

/-- Credit keywords of `_resolve_amount_pair` step 4c (`ledger.py`). -/
def CREDIT_KEYWORDS : List Str :=
  ["rent in", "rent received", "token received", "token", "received",
   "receipt", "inflow", "deposit", "advance received",
   "refund received"].map String.toList

/-- Direction-field scan of `_resolve_amount_pair` step 4b: first non-empty
hint naming a direction wins (`true` = credit); non-matching hints are
passed over. -/
def firstDirHint : List Str → Option Bool
  | [] => none
  | v :: rest =>
    let val := lowerStr (trimStr v)
    if val.isEmpty then firstDirHint rest
    else if val = "cr".toList ∨ val = "c".toList ∨ "credit".toList <:+: val then
      some true
    else if val = "dr".toList ∨ val = "d".toList ∨ "debit".toList <:+: val then
      some false
    else
      firstDirHint rest

/-- Steps 4a-4d of `_resolve_amount_pair`: a single amount plus directional
hints — explicit boolean flags, direction fields, transaction-type keyword
match (debit keywords first), and finally the sign of the amount itself. -/
def resolveDirected (o : SrcObj) (amt : ℚ) : ℚ × ℚ :=
  let flagged : Option (ℚ × ℚ) :=
    if o.is_credit.isSome || o.is_debit.isSome then
      let ic := o.is_credit.getD false
      let idb := o.is_debit.getD false
      if ic && !idb then some (amt, 0)
      else if idb && !ic then some (0, amt)
      else none
    else none
  match flagged with
  | some p => p
  | none =>
    match firstDirHint o.dirHints with
    | some true => (amt, 0)
    | some false => (0, amt)
    | none =>
      let tn := lowerStr (trimStr o.ttype_name)
      if !tn.isEmpty && DEBIT_KEYWORDS.any (fun k => decide (k <:+: tn)) then
        (0, amt)
      else if !tn.isEmpty && CREDIT_KEYWORDS.any (fun k => decide (k <:+: tn)) then
        (amt, 0)
      else if 0 ≤ amt then (amt, 0) else (0, -amt)

/-- Embeds `_resolve_amount_pair` from `ledger.py`: normalize a record to a
`(credit, debit)` pair through the priority cascade — explicit credit/debit
pairs, `credit_amount`/`debit_amount`, `deposit`/`withdrawal`, a signed
amount, then a single amount with directional hints. -/
def resolveAmountPair (o : SrcObj) : ℚ × ℚ :=
  if o.credit.isSome || o.debit.isSome then
    (decQ o.credit, decQ o.debit)
  else if o.credit_amount.isSome || o.debit_amount.isSome then
    (decQ o.credit_amount, decQ o.debit_amount)
  else if o.deposit.isSome || o.withdrawal.isSome then
    (decQ o.deposit, decQ o.withdrawal)
  else if o.signed_amount.isSome then
    let sa := decQ o.signed_amount
    (if 0 ≤ sa then sa else 0, if sa < 0 then -sa else 0)
  else
    match o.amount with
    | some a => resolveDirected o a
    | none => (0, 0)

/-- Normalized ledger row (the dict built by `_map_common` and
`_map_with_date_and_amount`). -/
structure Row where
  value_date : Option ℤ
  txn_type : Option Str
  remarks : Option Str
  credit : ℚ
  debit : ℚ
  entity : Option Str
  cost_centre : Option Str
  contract : Option Str
  asset : Option Str
  project : Option Str
deriving DecidableEq

/-- Embeds `_map_with_date_and_amount` from `ledger.py`: build the common
row and drop it when the date field resolved to null. -/
def mapRow (o : SrcObj) : Option Row :=
  let pair := resolveAmountPair o
  let out : Row := ⟨o.date_val, o.txn_type, o.remarks, pair.1, pair.2,
    o.entity, o.cost_centre, o.contract, o.asset, o.project⟩
  if out.value_date.isSome then some out else none

/-- Models the queryset date filters `df__gte` / `df__lte` (SQL `NULL`
never satisfies a comparison). -/
def dateOk (fromD toD : Option ℤ) (d : Option ℤ) : Bool :=
  (match fromD with
   | none => true
   | some f =>
     match d with
     | none => false
     | some x => decide (f ≤ x)) &&
  (match toD with
   | none => true
   | some t =>
     match d with
     | none => false
     | some x => decide (x ≤ t))

/-- Models `_filter_fk` / `_filter_property_like`: equality filter on an id
column when a filter value is requested. -/
def fkOk (want : Option ℕ) (has : Option ℕ) : Bool :=
  match want with
  | none => true
  | some w =>
    match has with
    | none => false
    | some h => decide (h = w)

/-- The three candidate sources of `unified_ledger`, as already
company-scoped querysets (company scoping, `cost_centre_slug` and the M&I
filter are constant across every property verified here and are modelled as
pre-applied to these lists). -/
structure Sources where
  classify : List SrcObj
  cash : List SrcObj
  bank : List SrcObj
deriving DecidableEq

/-- Filtered and mapped rows of the classification-split source. -/
def classifyRows (src : Sources) (fromD toD : Option ℤ)
    (entity_id project_id apartment_id : Option ℕ) : List Row :=
  (src.classify.filter (fun o => dateOk fromD toD o.date_val
    && fkOk entity_id o.entity_id && fkOk project_id o.project_id
    && fkOk apartment_id o.apartment_id)).filterMap mapRow

/-- Filtered and mapped rows of the cash-ledger source. -/
def cashRows (src : Sources) (fromD toD : Option ℤ)
    (entity_id project_id apartment_id : Option ℕ) : List Row :=
  (src.cash.filter (fun o => dateOk fromD toD o.date_val
    && fkOk entity_id o.entity_id && fkOk project_id o.project_id
    && fkOk apartment_id o.apartment_id)).filterMap mapRow

/-- Filtered and mapped rows of the raw bank-upload source (consulted only
with no entity/project/apartment filter, so only the date filter applies). -/
def bankRows (src : Sources) (fromD toD : Option ℤ) : List Row :=
  (src.bank.filter (fun o => dateOk fromD toD o.date_val)).filterMap mapRow

/-- Sort key of the final `rows.sort`: `(value_date, txn_type or "",
remarks or "")`, lexicographically. -/
def rowKey (r : Row) : Lex (ℤ × Lex (Str × Str)) :=
  toLex (r.value_date.getD 0, toLex (r.txn_type.getD [], r.remarks.getD []))

def rowOrd (a b : Row) : Prop := rowKey a ≤ rowKey b

instance : DecidableRel rowOrd := fun a b =>
  inferInstanceAs (Decidable (rowKey a ≤ rowKey b))

instance : IsTotal Row rowOrd := ⟨fun a b => le_total (rowKey a) (rowKey b)⟩

instance : IsTrans Row rowOrd := ⟨fun _ _ _ h1 h2 => le_trans h1 h2⟩

/-- The final ascending sort of the merged rows. -/
def sortRows (l : List Row) : List Row := List.insertionSort rowOrd l

/-- Embeds `unified_ledger` from `analytics/services/ledger.py`:
classification splits preferred (used only if they actually produced rows),
cash ledger only when classification produced nothing, raw bank uploads
only when classification produced nothing AND no entity/project/apartment
filter was requested; then sort by `(value_date, txn_type, remarks)`. -/
def unified_ledger (src : Sources) (from_date to_date : Option ℤ)
    (entity_id project_id apartment_id : Option ℕ) : List Row :=
  let cls := classifyRows src from_date to_date entity_id project_id apartment_id
  let used_classify := !cls.isEmpty
  let rows := cls
    ++ (if used_classify then []
        else cashRows src from_date to_date entity_id project_id apartment_id)
    ++ (if !used_classify && entity_id.isNone && project_id.isNone
          && apartment_id.isNone
        then bankRows src from_date to_date else [])
  sortRows rows

/-- Embeds `running_balance` from `ledger.py`: walk the rows in the given
order, accumulating `balance += credit - debit`, attaching the running value
to each row; no re-sorting. -/
def running_balance : List Row → ℚ → List (Row × ℚ)
  | [], _ => []
  | r :: rest, bal =>
    let b := bal + r.credit - r.debit
    (r, b) :: running_balance rest b

/-- Sum of `credit - debit` over a row list. -/
def sumCD (l : List Row) : ℚ := (l.map (fun r => r.credit - r.debit)).sum

/-- Embeds `opening_balance_until` from `ledger.py`: zero when the exclusive
date is absent, otherwise the fold of `credit - debit` over the unified
ledger up to the previous day under the same filters. -/
def opening_balance_until (src : Sources) (until_exclusive : Option ℤ)
    (entity_id project_id apartment_id : Option ℕ) : ℚ :=
  match until_exclusive with
  | none => 0
  | some d =>
    (unified_ledger src none (some (d - 1)) entity_id project_id apartment_id).foldl
      (fun b r => b + r.credit - r.debit) 0

lemma mapRow_some_date {o : SrcObj} {r : Row} (h : mapRow o = some r) :
    r.value_date = o.date_val ∧ r.value_date ≠ none := by
  unfold mapRow at h
  by_cases hd : (o.date_val).isSome
  · simp only [hd, if_pos] at h
    have h2 := Option.some.inj h
    subst h2
    exact ⟨rfl, by simpa [Option.isSome_iff_ne_none] using hd⟩
  · simp [hd] at h

lemma unified_ledger_def (src : Sources) (f t : Option ℤ) (e p a : Option ℕ) :
    unified_ledger src f t e p a
      = sortRows (classifyRows src f t e p a
          ++ (if !(classifyRows src f t e p a).isEmpty then []
              else cashRows src f t e p a)
          ++ (if !(!(classifyRows src f t e p a).isEmpty) && e.isNone && p.isNone
                && a.isNone
              then bankRows src f t else [])) := rfl

lemma mem_unified_ledger_sources {src : Sources} {f t : Option ℤ}
    {e p a : Option ℕ} {r : Row} (h : r ∈ unified_ledger src f t e p a) :
    (∃ o, mapRow o = some r ∧ dateOk f t o.date_val = true) := by
  rw [unified_ledger_def] at h
  have hperm := List.perm_insertionSort rowOrd
    (classifyRows src f t e p a
      ++ (if !(classifyRows src f t e p a).isEmpty then []
          else cashRows src f t e p a)
      ++ (if !(!(classifyRows src f t e p a).isEmpty) && e.isNone && p.isNone && a.isNone
          then bankRows src f t else []))
  rw [show sortRows (classifyRows src f t e p a
      ++ (if !(classifyRows src f t e p a).isEmpty then []
          else cashRows src f t e p a)
      ++ (if !(!(classifyRows src f t e p a).isEmpty) && e.isNone && p.isNone && a.isNone
          then bankRows src f t else []))
    = List.insertionSort rowOrd (classifyRows src f t e p a
      ++ (if !(classifyRows src f t e p a).isEmpty then []
          else cashRows src f t e p a)
      ++ (if !(!(classifyRows src f t e p a).isEmpty) && e.isNone && p.isNone && a.isNone
          then bankRows src f t else [])) from rfl] at h
  rw [(hperm.mem_iff)] at h
  rcases List.mem_append.mp h with h1 | h2
  · rcases List.mem_append.mp h1 with h1a | h1b
    · rcases List.mem_filterMap.mp h1a with ⟨o, homem, ho⟩
      have hpred := (List.mem_filter.mp homem).2
      simp only [Bool.and_eq_true] at hpred
      exact ⟨o, ho, hpred.1.1.1⟩
    · rcases h1b' : (if !(classifyRows src f t e p a).isEmpty then ([] : List Row)
        else cashRows src f t e p a) with _ | _
      · rw [h1b'] at h1b
        cases h1b
      · rw [h1b'] at h1b
        by_cases hc : (!(classifyRows src f t e p a).isEmpty) = true
        · rw [if_pos hc] at h1b'
          cases h1b'
        · rw [if_neg hc] at h1b'
          rw [← h1b'] at h1b
          rcases List.mem_filterMap.mp h1b with ⟨o, homem, ho⟩
          have hpred := (List.mem_filter.mp homem).2
          simp only [Bool.and_eq_true] at hpred
          exact ⟨o, ho, hpred.1.1.1⟩
  · by_cases hc : (!(!(classifyRows src f t e p a).isEmpty) && e.isNone && p.isNone
        && a.isNone) = true
    · rw [if_pos hc] at h2
      rcases List.mem_filterMap.mp h2 with ⟨o, homem, ho⟩
      exact ⟨o, ho, (List.mem_filter.mp homem).2⟩
    · rw [if_neg hc] at h2
      cases h2

/-- C8: every row returned by `unified_ledger` has a non-null `value_date`
(source records whose date resolves to null are dropped by the mapper), and
the output is sorted ascending by `(value_date, txn_type or empty,
remarks or empty)`. -/
theorem C8_nonnull_dates_and_sort_order (src : Sources) (f t : Option ℤ)
    (e p a : Option ℕ) :
    (∀ o : SrcObj, o.date_val = none → mapRow o = none)
    ∧ (∀ r ∈ unified_ledger src f t e p a, r.value_date ≠ none)
    ∧ List.Sorted rowOrd (unified_ledger src f t e p a) := by
  refine ⟨?_, ?_, ?_⟩
  · intro o h
    simp [mapRow, h]
  · intro r hr
    rcases mem_unified_ledger_sources hr with ⟨o, ho, _⟩
    exact (mapRow_some_date ho).2
  · exact List.sorted_insertionSort rowOrd _

theorem C8_witness :
    ((⟨some 3, none, some "b".toList, 5, 0, none, none, none, none, none⟩ : Row).value_date
      ≠ none) :=
  (C8_nonnull_dates_and_sort_order
    ⟨[], [], [{ date_val := some 3, credit := some 5, remarks := some "b".toList }]⟩
    none none none none none).2.1
    ⟨some 3, none, some "b".toList, 5, 0, none, none, none, none, none⟩
    (by
      show _ ∈ unified_ledger _ none none none none none
      rw [show unified_ledger
          ⟨[], [], [{ date_val := some 3, credit := some 5, remarks := some "b".toList }]⟩
          none none none none none
        = [⟨some 3, none, some "b".toList, 5, 0, none, none, none, none, none⟩] from rfl]
      exact List.mem_singleton.mpr rfl)

/-- C2 (amended): classification-split rows are preferred — when they are
non-empty under the filters, the output is exactly their sorted list and no
cash or bank row appears; when any of the entity, project or apartment
filters is set, the bank-upload source is irrelevant to the output (so its
rows never appear); when classification yields nothing and no
entity/project/apartment filter is set, the output is the sorted union of
the cash-ledger and bank-upload rows — the bank fallback is gated only by
the classification yield and the filters, not by the cash-ledger
yield. -/
theorem C2_source_fallback_priority (src : Sources) (f t : Option ℤ)
    (e p a : Option ℕ) :
    (classifyRows src f t e p a ≠ [] →
      unified_ledger src f t e p a = sortRows (classifyRows src f t e p a))
    ∧ (e ≠ none ∨ p ≠ none ∨ a ≠ none →
      unified_ledger src f t e p a
        = unified_ledger ⟨src.classify, src.cash, []⟩ f t e p a)
    ∧ (classifyRows src f t e p a = [] → e = none → p = none → a = none →
      unified_ledger src f t e p a
        = sortRows (cashRows src f t e p a ++ bankRows src f t)) := by
  refine ⟨?_, ?_, ?_⟩
  · intro hne
    rw [unified_ledger_def]
    have hcls : (!(classifyRows src f t e p a).isEmpty) = true := by
      simpa [List.isEmpty_iff] using hne
    rw [if_pos hcls]
    have hguard : (!(!(classifyRows src f t e p a).isEmpty) && e.isNone && p.isNone
        && a.isNone) = false := by
      simp [hcls]
    rw [hguard]
    simp
  · intro hne
    rw [unified_ledger_def, unified_ledger_def]
    have hclseq : classifyRows ⟨src.classify, src.cash, []⟩ f t e p a
        = classifyRows src f t e p a := rfl
    have hcasheq : cashRows ⟨src.classify, src.cash, []⟩ f t e p a
        = cashRows src f t e p a := rfl
    rw [hclseq, hcasheq]
    have hguard : ∀ b : Bool, (b && e.isNone && p.isNone && a.isNone) = false := by
      intro b
      rcases hne with h | h | h
      · rcases e with _ | ev
        · exact absurd rfl h
        · simp
      · rcases p with _ | pv
        · exact absurd rfl h
        · simp
      · rcases a with _ | av
        · exact absurd rfl h
        · simp
    rw [hguard]
    simp
  · intro hcls he hp ha
    subst he
    subst hp
    subst ha
    rw [unified_ledger_def, hcls]
    simp

theorem C2_witness :
    (unified_ledger ⟨[{ date_val := some 4, credit := some 9 }], [], []⟩
        none none none none none
      = sortRows (classifyRows ⟨[{ date_val := some 4, credit := some 9 }], [], []⟩
          none none none none none))
    ∧ (unified_ledger ⟨[], [{ date_val := some 4, credit := some 9 }],
          [{ date_val := some 6, credit := some 3 }]⟩ none none none (some 7) none
      = unified_ledger ⟨[], [{ date_val := some 4, credit := some 9 }], []⟩
          none none none (some 7) none) :=
  ⟨(C2_source_fallback_priority ⟨[{ date_val := some 4, credit := some 9 }], [], []⟩
      none none none none none).1 (by
        rw [show classifyRows ⟨[{ date_val := some 4, credit := some 9 }], [], []⟩
            none none none none none
          = [⟨some 4, none, none, 9, 0, none, none, none, none, none⟩] from rfl]
        simp),
    (C2_source_fallback_priority ⟨[], [{ date_val := some 4, credit := some 9 }],
        [{ date_val := some 6, credit := some 3 }]⟩ none none none (some 7) none).2.1
      (Or.inr (Or.inl (by simp)))⟩

/-- Cash-ledger record used in the C2 counterexample. -/
def c2cash : SrcObj :=
  { date_val := some 1, credit := some 50, remarks := some "cash entry".toList }

/-- Bank-upload record used in the C2 counterexample. -/
def c2bank : SrcObj :=
  { date_val := some 2, credit_amount := some 70, remarks := some "bank row".toList }

/-- Sources with empty classification, one cash row and one bank row. -/
def c2src : Sources := ⟨[], [c2cash], [c2bank]⟩

def c2cashRow : Row :=
  ⟨some 1, none, some "cash entry".toList, 50, 0, none, none, none, none, none⟩

def c2bankRow : Row :=
  ⟨some 2, none, some "bank row".toList, 70, 0, none, none, none, none, none⟩

/-- C2 counterexample: with an empty classification source, a non-empty
cash-ledger source, a non-empty bank-upload source and no filters, the
output contains the bank-upload row alongside the cash row — although the
cash-ledger source yielded rows, refuting the claim that bank rows appear
only when both the classification and the cash-ledger source yielded
nothing. -/
theorem C2_counterexample :
    cashRows c2src none none none none none = [c2cashRow]
    ∧ unified_ledger c2src none none none none none = [c2cashRow, c2bankRow]
    ∧ c2bankRow ∈ bankRows c2src none none := by
  refine ⟨rfl, ?_, ?_⟩
  · rw [unified_ledger_def]
    rw [show classifyRows c2src none none none none none = [] from rfl]
    rw [show cashRows c2src none none none none none = [c2cashRow] from rfl]
    rw [show bankRows c2src none none = [c2bankRow] from rfl]
    have hord : rowOrd c2cashRow c2bankRow := by
      unfold rowOrd rowKey c2cashRow c2bankRow
      simp only [Option.getD_some]
      left
      norm_num
    have hsorted : List.Sorted rowOrd [c2cashRow, c2bankRow] := by
      refine List.sorted_cons.mpr ⟨?_, List.sorted_singleton _⟩
      intro b hb
      rw [List.mem_singleton.mp hb]
      exact hord
    show sortRows ([] ++ [c2cashRow] ++ [c2bankRow]) = _
    unfold sortRows
    rw [List.nil_append]
    exact hsorted.insertionSort_eq
  · rw [show bankRows c2src none none = [c2bankRow] from rfl]
    exact List.mem_singleton.mpr rfl

lemma sumCD_nil : sumCD [] = 0 := rfl

lemma sumCD_cons (r : Row) (l : List Row) :
    sumCD (r :: l) = (r.credit - r.debit) + sumCD l := by
  simp [sumCD]

lemma sumCD_append (l1 l2 : List Row) : sumCD (l1 ++ l2) = sumCD l1 + sumCD l2 := by
  simp [sumCD]

lemma sumCD_perm {l1 l2 : List Row} (h : l1.Perm l2) : sumCD l1 = sumCD l2 :=
  (h.map _).sum_eq

lemma sumCD_sortRows (l : List Row) : sumCD (sortRows l) = sumCD l :=
  sumCD_perm (List.perm_insertionSort rowOrd l)

lemma sumCD_sortRows_filter (l : List Row) (pr : Row → Bool) :
    sumCD ((sortRows l).filter pr) = sumCD (l.filter pr) :=
  sumCD_perm ((List.perm_insertionSort rowOrd l).filter pr)

lemma foldl_sumCD : ∀ (l : List Row) (b : ℚ),
    l.foldl (fun acc r => acc + r.credit - r.debit) b = b + sumCD l := by
  intro l
  induction l with
  | nil => intro b; simp [sumCD]
  | cons r rest ih =>
    intro b
    rw [List.foldl_cons, ih, sumCD_cons]
    ring

lemma running_balance_length : ∀ (rows : List Row) (b0 : ℚ),
    (running_balance rows b0).length = rows.length := by
  intro rows
  induction rows with
  | nil => intro b0; rfl
  | cons r rest ih =>
    intro b0
    rw [running_balance]
    simp only [List.length_cons, ih]

lemma running_balance_get : ∀ (rows : List Row) (b0 : ℚ) (i : ℕ)
    (h1 : i < (running_balance rows b0).length) (h2 : i < rows.length),
    (running_balance rows b0).get ⟨i, h1⟩
      = (rows.get ⟨i, h2⟩, b0 + sumCD (rows.take (i + 1))) := by
  intro rows
  induction rows with
  | nil => intro b0 i h1 h2; cases h2
  | cons r rest ih =>
    intro b0 i h1 h2
    cases i with
    | zero =>
      show (r, b0 + r.credit - r.debit) = (r, b0 + sumCD ((r :: rest).take 1))
      rw [List.take_succ_cons, List.take_zero, sumCD_cons, sumCD_nil]
      rw [Prod.mk.injEq]
      exact ⟨rfl, by ring⟩
    | succ j =>
      have h1b : j < (running_balance rest (b0 + r.credit - r.debit)).length := by
        have := running_balance_length rest (b0 + r.credit - r.debit)
        rw [this]
        exact Nat.lt_of_succ_lt_succ h2
      have h2b : j < rest.length := Nat.lt_of_succ_lt_succ h2
      show (running_balance rest (b0 + r.credit - r.debit)).get ⟨j, _⟩ = _
      rw [ih (b0 + r.credit - r.debit) j h1b h2b]
      rw [List.take_succ_cons, sumCD_cons]
      rw [Prod.mk.injEq]
      refine ⟨rfl, by ring⟩

/-- Rows of one source up to an exclusive cutoff day, with an extra
date-independent queryset predicate `q`. -/
def yieldRows (l : List SrcObj) (q : SrcObj → Bool) (cut : ℤ) : List Row :=
  (l.filter (fun o => dateOk none (some (cut - 1)) o.date_val && q o)).filterMap mapRow

/-- Packaged entity/project/apartment filter of the classify and cash
querysets. -/
def qEPA (e p a : Option ℕ) (o : SrcObj) : Bool :=
  fkOk e o.entity_id && fkOk p o.project_id && fkOk a o.apartment_id

lemma classifyRows_cut (src : Sources) (d : ℤ) (e p a : Option ℕ) :
    classifyRows src none (some (d - 1)) e p a
      = yieldRows src.classify (qEPA e p a) d := by
  unfold classifyRows yieldRows qEPA
  congr 1
  apply List.filter_congr
  intro o _
  cases dateOk none (some (d - 1)) o.date_val <;> cases fkOk e o.entity_id <;>
    cases fkOk p o.project_id <;> cases fkOk a o.apartment_id <;> rfl

lemma cashRows_cut (src : Sources) (d : ℤ) (e p a : Option ℕ) :
    cashRows src none (some (d - 1)) e p a
      = yieldRows src.cash (qEPA e p a) d := by
  unfold cashRows yieldRows qEPA
  congr 1
  apply List.filter_congr
  intro o _
  cases dateOk none (some (d - 1)) o.date_val <;> cases fkOk e o.entity_id <;>
    cases fkOk p o.project_id <;> cases fkOk a o.apartment_id <;> rfl

lemma bankRows_cut (src : Sources) (d : ℤ) :
    bankRows src none (some (d - 1)) = yieldRows src.bank (fun _ => true) d := by
  unfold bankRows yieldRows
  congr 1
  apply List.filter_congr
  intro o _
  cases dateOk none (some (d - 1)) o.date_val <;> rfl

lemma yieldRows_cons (o : SrcObj) (rest : List SrcObj) (q : SrcObj → Bool) (c : ℤ) :
    yieldRows (o :: rest) q c
      = (if (dateOk none (some (c - 1)) o.date_val && q o) = true
         then (mapRow o).toList else []) ++ yieldRows rest q c := by
  unfold yieldRows
  rw [List.filter_cons]
  by_cases hp : (dateOk none (some (c - 1)) o.date_val && q o) = true
  · rw [if_pos hp, if_pos hp]
    cases hm : mapRow o <;> simp [List.filterMap_cons, hm]
  · rw [if_neg hp, if_neg hp]
    simp

lemma mapRow_of_date {o : SrcObj} {x : ℤ} (h : o.date_val = some x) :
    mapRow o = some ⟨some x, o.txn_type, o.remarks, (resolveAmountPair o).1,
      (resolveAmountPair o).2, o.entity, o.cost_centre, o.contract, o.asset,
      o.project⟩ := by
  unfold mapRow
  rw [h]
  rfl

lemma yield_mono (ll : List SrcObj) (q : SrcObj → Bool) {d1 d2 : ℤ} (h : d1 ≤ d2)
    (hne : yieldRows ll q d1 ≠ []) : yieldRows ll q d2 ≠ [] := by
  rcases List.exists_mem_of_ne_nil _ hne with ⟨r, hr⟩
  rcases List.mem_filterMap.mp hr with ⟨o, ho, hmap⟩
  rcases List.mem_filter.mp ho with ⟨hol, hpred⟩
  simp only [Bool.and_eq_true] at hpred
  rcases hpred with ⟨hdate, hq⟩
  rcases hd : o.date_val with _ | x
  · rw [hd] at hdate
    cases hdate
  · rw [hd] at hdate
    have hx1 : x ≤ d1 - 1 := by
      simpa [dateOk] using hdate
    have hx2 : x ≤ d2 - 1 := le_trans hx1 (by omega)
    have hpred2 : (dateOk none (some (d2 - 1)) o.date_val && q o) = true := by
      rw [hd]
      simp [dateOk, hx2, hq]
    intro hcon
    have : r ∈ yieldRows ll q d2 :=
      List.mem_filterMap.mpr ⟨o, List.mem_filter.mpr ⟨hol, hpred2⟩, hmap⟩
    rw [hcon] at this
    cases this

lemma yield_split (q : SrcObj → Bool) (d1 d2 : ℤ) (h12 : d1 ≤ d2) :
    ∀ ll : List SrcObj,
      sumCD (yieldRows ll q d2)
        = sumCD (yieldRows ll q d1)
          + sumCD ((yieldRows ll q d2).filter
              (fun r => decide (d1 ≤ r.value_date.getD 0))) := by
  intro ll
  induction ll with
  | nil => simp [yieldRows, sumCD]
  | cons o rest ih =>
    rw [yieldRows_cons, yieldRows_cons]
    rcases hd : o.date_val with _ | x
    · have hp : ∀ c : ℤ, (dateOk none (some (c - 1)) (none : Option ℤ) && q o) = false := by
        intro c
        rfl
      rw [hp d1, hp d2]
      simpa using ih
    · cases hq : q o with
      | false =>
        have hp : ∀ c : ℤ, (dateOk none (some (c - 1)) (some x) && false) = false := by
          intro c
          rw [Bool.and_false]
        rw [hp d1, hp d2]
        simpa using ih
      | true =>
        have hp : ∀ c : ℤ, (dateOk none (some (c - 1)) (some x) && true)
            = decide (x ≤ c - 1) := by
          intro c
          simp [dateOk]
        rw [hp d1, hp d2, mapRow_of_date hd]
        by_cases hx2 : x ≤ d2 - 1
        · rw [if_pos (by simpa using hx2)]
          simp only [Option.toList_some, List.singleton_append]
          rw [List.filter_cons]
          by_cases hx1 : x ≤ d1 - 1
          · rw [if_pos (by simpa using hx1)]
            have hnot : ¬ d1 ≤ x := by omega
            rw [show (decide (d1 ≤ (Row.mk (some x) o.txn_type o.remarks
                (resolveAmountPair o).1 (resolveAmountPair o).2 o.entity o.cost_centre
                o.contract o.asset o.project).value_date.getD 0)) = false by
              simpa using hnot]
            simp only [Bool.false_eq_true, if_false, List.singleton_append]
            rw [sumCD_cons, sumCD_cons]
            rw [ih]
            ring
          · rw [if_neg (by simpa using hx1)]
            have hyes : d1 ≤ x := by omega
            rw [show (decide (d1 ≤ (Row.mk (some x) o.txn_type o.remarks
                (resolveAmountPair o).1 (resolveAmountPair o).2 o.entity o.cost_centre
                o.contract o.asset o.project).value_date.getD 0)) = true by
              simpa using hyes]
            simp only [if_true, List.nil_append]
            rw [sumCD_cons, sumCD_cons]
            rw [ih]
            ring
        · have hx1 : ¬ x ≤ d1 - 1 := by omega
          rw [if_neg (by simpa using hx2), if_neg (by simpa using hx1)]
          simpa using ih

/-- Shape of the unified ledger when classification yielded rows. -/
lemma ledger_when_classify (src : Sources) (f t : Option ℤ) (e p a : Option ℕ)
    (h : classifyRows src f t e p a ≠ []) :
    unified_ledger src f t e p a = sortRows (classifyRows src f t e p a) := by
  rw [unified_ledger_def]
  have hcls : (!(classifyRows src f t e p a).isEmpty) = true := by
    simpa [List.isEmpty_iff] using h
  rw [if_pos hcls]
  have hguard : (!(!(classifyRows src f t e p a).isEmpty) && e.isNone && p.isNone
      && a.isNone) = false := by
    simp [hcls]
  rw [hguard]
  simp

/-- Shape of the unified ledger with empty classification and no filters. -/
lemma ledger_fallback_all (src : Sources) (f t : Option ℤ)
    (h : classifyRows src f t none none none = []) :
    unified_ledger src f t none none none
      = sortRows (cashRows src f t none none none ++ bankRows src f t) := by
  rw [unified_ledger_def, h]
  simp

/-- Shape of the unified ledger with empty classification but at least one
entity/project/apartment filter set: the cash fallback alone. -/
lemma ledger_fallback_filtered (src : Sources) (f t : Option ℤ) (e p a : Option ℕ)
    (h : classifyRows src f t e p a = [])
    (hf : ¬((e.isNone && p.isNone && a.isNone) = true)) :
    unified_ledger src f t e p a = sortRows (cashRows src f t e p a) := by
  rw [unified_ledger_def, h]
  have hb : (e.isNone && p.isNone && a.isNone) = false := Bool.eq_false_iff.mpr hf
  simp [hb]

/-- `opening_balance_until` with a present date is the `credit - debit` sum
over the cutoff ledger. -/
lemma opening_eq_sumCD (src : Sources) (d : ℤ) (e p a : Option ℕ) :
    opening_balance_until src (some d) e p a
      = sumCD (unified_ledger src none (some (d - 1)) e p a) := by
  have h1 : opening_balance_until src (some d) e p a
      = (unified_ledger src none (some (d - 1)) e p a).foldl
          (fun b r => b + r.credit - r.debit) 0 := rfl
  rw [h1, foldl_sumCD, zero_add]

/-- C6 (amended): `running_balance` preserves the row order and length and
attaches at position `i` the value `B0 + sum(credit - debit over rows 0..i)`;
`opening_balance_until` is zero for an absent date and otherwise the
`credit - debit` sum over the unified-ledger rows strictly before the date
under the same filters; and the compositional identity
`opening(d2) = opening(d1) + sum over the window [d1, d2)` holds whenever
the two cutoffs use the same source-fallback regime (classification
non-empty at the earlier cutoff, or classification still empty at the later
one). -/
theorem C6_running_and_opening_balance (src : Sources) (e p a : Option ℕ) :
    (∀ (rows : List Row) (b0 : ℚ),
      (running_balance rows b0).length = rows.length
      ∧ ∀ (i : ℕ) (h1 : i < (running_balance rows b0).length) (h2 : i < rows.length),
          (running_balance rows b0).get ⟨i, h1⟩
            = (rows.get ⟨i, h2⟩, b0 + sumCD (rows.take (i + 1))))
    ∧ opening_balance_until src none e p a = 0
    ∧ (∀ d : ℤ,
        opening_balance_until src (some d) e p a
          = sumCD (unified_ledger src none (some (d - 1)) e p a)
        ∧ ∀ r ∈ unified_ledger src none (some (d - 1)) e p a,
            ∀ x : ℤ, r.value_date = some x → x < d)
    ∧ (∀ d1 d2 : ℤ, d1 ≤ d2 →
        (classifyRows src none (some (d1 - 1)) e p a ≠ []
          ∨ classifyRows src none (some (d2 - 1)) e p a = []) →
        opening_balance_until src (some d2) e p a
          = opening_balance_until src (some d1) e p a
            + sumCD ((unified_ledger src none (some (d2 - 1)) e p a).filter
                (fun r => decide (d1 ≤ r.value_date.getD 0)))) := by
  refine ⟨?_, rfl, ?_, ?_⟩
  · intro rows b0
    exact ⟨running_balance_length rows b0,
      fun i h1 h2 => running_balance_get rows b0 i h1 h2⟩
  · intro d
    refine ⟨opening_eq_sumCD src d e p a, ?_⟩
    intro r hr x hx
    rcases mem_unified_ledger_sources hr with ⟨o, hmap, hdate⟩
    have hvd := (mapRow_some_date hmap).1
    rw [hx] at hvd
    rw [← hvd] at hdate
    have hle : x ≤ d - 1 := by simpa [dateOk] using hdate
    omega
  · intro d1 d2 h12 hreg
    rw [opening_eq_sumCD, opening_eq_sumCD]
    by_cases hc1 : classifyRows src none (some (d1 - 1)) e p a = []
    · have hc2 : classifyRows src none (some (d2 - 1)) e p a = [] := by
        rcases hreg with h | h
        · exact absurd hc1 h
        · exact h
      by_cases hepa : (e.isNone && p.isNone && a.isNone) = true
      · have he : e = none := by
          simp only [Bool.and_eq_true, Option.isNone_iff_eq_none] at hepa
          exact hepa.1.1
        have hpn : p = none := by
          simp only [Bool.and_eq_true, Option.isNone_iff_eq_none] at hepa
          exact hepa.1.2
        have han : a = none := by
          simp only [Bool.and_eq_true, Option.isNone_iff_eq_none] at hepa
          exact hepa.2
        subst he; subst hpn; subst han
        rw [ledger_fallback_all src none (some (d2 - 1)) hc2,
          ledger_fallback_all src none (some (d1 - 1)) hc1]
        rw [sumCD_sortRows, sumCD_sortRows, sumCD_sortRows_filter]
        rw [List.filter_append, sumCD_append, sumCD_append, sumCD_append]
        rw [cashRows_cut, cashRows_cut, bankRows_cut, bankRows_cut]
        have h1 := yield_split (qEPA none none none) d1 d2 h12 src.cash
        have h2 := yield_split (fun _ => true) d1 d2 h12 src.bank
        linarith
      · rw [ledger_fallback_filtered src none (some (d2 - 1)) e p a hc2 hepa,
          ledger_fallback_filtered src none (some (d1 - 1)) e p a hc1 hepa]
        rw [sumCD_sortRows, sumCD_sortRows, sumCD_sortRows_filter]
        rw [cashRows_cut, cashRows_cut]
        exact yield_split (qEPA e p a) d1 d2 h12 src.cash
    · have hc2 : classifyRows src none (some (d2 - 1)) e p a ≠ [] := by
        rw [classifyRows_cut] at hc1 ⊢
        exact yield_mono src.classify (qEPA e p a) h12 hc1
      rw [ledger_when_classify src none (some (d2 - 1)) e p a hc2,
        ledger_when_classify src none (some (d1 - 1)) e p a hc1]
      rw [sumCD_sortRows, sumCD_sortRows, sumCD_sortRows_filter]
      rw [classifyRows_cut, classifyRows_cut]
      exact yield_split (qEPA e p a) d1 d2 h12 src.classify

/-- Sources used by the C6 witness: no classification rows, one cash row. -/
def c6wSrc : Sources := ⟨[], [{ date_val := some 1, credit := some 7 }], []⟩

theorem C6_witness :
    opening_balance_until c6wSrc (some 5) none none none
      = opening_balance_until c6wSrc (some 3) none none none
        + sumCD ((unified_ledger c6wSrc none (some (5 - 1)) none none none).filter
            (fun r => decide ((3 : ℤ) ≤ r.value_date.getD 0))) :=
  (C6_running_and_opening_balance c6wSrc none none none).2.2.2 3 5 (by decide)
    (Or.inr rfl)

/-- Classification record (day 15, credit 100) for the C6 counterexample. -/
def c6cls : SrcObj := { date_val := some 15, credit := some 100 }

/-- Cash-ledger record (day 5, credit 50) for the C6 counterexample. -/
def c6cashObj : SrcObj := { date_val := some 5, credit := some 50 }

/-- Sources whose fallback regime differs between cutoff 10 and cutoff 20. -/
def c6src : Sources := ⟨[c6cls], [c6cashObj], []⟩

def c6clsRow : Row := ⟨some 15, none, none, 100, 0, none, none, none, none, none⟩

def c6cashRow : Row := ⟨some 5, none, none, 50, 0, none, none, none, none, none⟩

/-- C6 counterexample: with one classification row on day 15 (credit 100)
and one cash row on day 5 (credit 50), the cutoff-20 ledger uses the
classification source (sum 100) while the cutoff-10 ledger falls back to
the cash source (sum 50); the rows of the cutoff-20 ledger dated in
[10, 20) sum to 100, so the claimed identity would require 100 = 50 + 100,
which is false. -/
theorem C6_counterexample :
    opening_balance_until c6src (some 20) none none none = 100
    ∧ opening_balance_until c6src (some 10) none none none = 50
    ∧ sumCD ((unified_ledger c6src none (some (20 - 1)) none none none).filter
        (fun r => decide ((10 : ℤ) ≤ r.value_date.getD 0))) = 100
    ∧ (100 : ℚ) ≠ 50 + 100 := by
  have h20 : unified_ledger c6src none (some ((20 : ℤ) - 1)) none none none
      = [c6clsRow] := rfl
  have h10 : unified_ledger c6src none (some ((10 : ℤ) - 1)) none none none
      = [c6cashRow] := rfl
  refine ⟨?_, ?_, ?_, by norm_num⟩
  · rw [opening_eq_sumCD, h20]
    norm_num [sumCD, c6clsRow]
  · rw [opening_eq_sumCD, h10]
    norm_num [sumCD, c6cashRow]
  · rw [h20]
    norm_num [List.filter, sumCD, c6clsRow]

/-! ### Financial dashboard pivot (`FinancialDashboardPivotView.post`) -/

/-- The em-dash placeholder label used for missing dimension values. -/
def emdash : Str := "—".toList

/-- Embeds `_dim_value` from `views.py` for the dimension names a pivot
request can select: read the row field named by the dimension (`dict.get`
returns `None` for unknown keys). -/
def dimGet (r : Row) (d : Str) : Option Str :=
  if d = "entity".toList then r.entity
  else if d = "cost_centre".toList then r.cost_centre
  else if d = "contract".toList then r.contract
  else if d = "asset".toList then r.asset
  else if d = "project".toList then r.project
  else if d = "txn_type".toList then r.txn_type
  else if d = "remarks".toList then r.remarks
  else none

/-- Label of one dimension of one row, as computed in both the filter and
the grouping loop: the period label of `value_date` for the `date`
dimension (the formatter `fmt` packages `_format_period` with the chosen
granularity), otherwise the field value with falsy values replaced by the
em dash. -/
def dimLabel (fmt : Option ℤ → Str) (r : Row) (d : Str) : Str :=
  if d = "date".toList then fmt r.value_date
  else
    match dimGet r d with
    | none => emdash
    | some s => if s.isEmpty then emdash else s

/-- Embeds the `allowed` predicate: a row passes when, for every selected
dimension, either no value filter was requested (falsy selection) or the
row label for that dimension is among the selected values. -/
def pivotAllowed (fmt : Option ℤ → Str) (dims : List Str)
    (values : Str → Option (List Str)) (r : Row) : Bool :=
  dims.all (fun d =>
    match values d with
    | none => true
    | some sl => if sl.isEmpty then true else sl.contains (dimLabel fmt r d))

/-- Group key of a row: the tuple of its dimension labels. -/
def groupKey (fmt : Option ℤ → Str) (dims : List Str) (r : Row) : List Str :=
  dims.map (dimLabel fmt r)

/-- One `defaultdict` update of the grouping accumulator: add the row
amounts to the entry of its key, appending a fresh zero-initialised entry
when the key is new (Python dicts keep first-insertion order). -/
def pivotUpsert (k : List Str) (c d : ℚ) :
    List (List Str × ℚ × ℚ) → List (List Str × ℚ × ℚ)
  | [] => [(k, c, d)]
  | (k2, c2, d2) :: rest =>
    if k = k2 then (k2, c2 + c, d2 + d) :: rest
    else (k2, c2, d2) :: pivotUpsert k c d rest

/-- The grouping loop: fold the filtered rows into per-key credit/debit
accumulators. -/
def pivotGroups (fmt : Option ℤ → Str) (dims : List Str) (filt : List Row) :
    List (List Str × ℚ × ℚ) :=
  filt.foldl (fun acc r => pivotUpsert (groupKey fmt dims r) r.credit r.debit acc) []

/-- One output group row of the pivot response. -/
structure PivotRow where
  key : List Str
  credit : ℚ
  debit : ℚ
  margin : ℚ
deriving DecidableEq

/-- The `out` list: each group becomes a row carrying its accumulated
credit and debit and `margin = credit - debit`. -/
def pivotOut (groups : List (List Str × ℚ × ℚ)) : List PivotRow :=
  groups.map (fun g => ⟨g.1, g.2.1, g.2.2, g.2.1 - g.2.2⟩)

/-- Sort key of the balance loop: ascending `value_date`. -/
def dateLe (r1 r2 : Row) : Prop :=
  r1.value_date.getD 0 ≤ r2.value_date.getD 0

instance : DecidableRel dateLe := fun r1 r2 =>
  inferInstanceAs (Decidable (r1.value_date.getD 0 ≤ r2.value_date.getD 0))

/-- The filtered (not grouped) row set of a pivot request: the unified
ledger over the date range with no entity/project/apartment scoping,
restricted by `allowed`. -/
def pivotFilt (fmt : Option ℤ → Str) (dims : List Str)
    (values : Str → Option (List Str)) (src : Sources) (f t : ℤ) : List Row :=
  (unified_ledger src (some f) (some t) none none none).filter
    (pivotAllowed fmt dims values)

/-- The `out` list of a pivot request. -/
def pivot_out (fmt : Option ℤ → Str) (dims : List Str)
    (values : Str → Option (List Str)) (src : Sources) (f t : ℤ) : List PivotRow :=
  pivotOut (pivotGroups fmt dims (pivotFilt fmt dims values src f t))

/-- The `bal` value: one chronological running balance accumulated over the
filtered row set sorted by value date. -/
def pivot_bal (fmt : Option ℤ → Str) (dims : List Str)
    (values : Str → Option (List Str)) (src : Sources) (f t : ℤ) : ℚ :=
  (List.insertionSort dateLe (pivotFilt fmt dims values src f t)).foldl
    (fun b r => b + r.credit - r.debit) 0

/-- Totals block of the pivot response. -/
structure PivotTotals where
  credit : ℚ
  debit : ℚ
  margin : ℚ
  balance : ℚ
deriving DecidableEq

/-- Pivot response payload. -/
structure PivotOutput where
  rows : List PivotRow
  totals : PivotTotals
deriving DecidableEq

/-- Embeds `FinancialDashboardPivotView.post`: filter, group, derive
margins, and report totals as the sums over the group rows plus the
running balance over the filtered set. -/
def financialDashboardPivot (fmt : Option ℤ → Str) (dims : List Str)
    (values : Str → Option (List Str)) (src : Sources) (f t : ℤ) : PivotOutput :=
  { rows := pivot_out fmt dims values src f t,
    totals :=
      { credit := ((pivot_out fmt dims values src f t).map PivotRow.credit).sum,
        debit := ((pivot_out fmt dims values src f t).map PivotRow.debit).sum,
        margin := ((pivot_out fmt dims values src f t).map PivotRow.margin).sum,
        balance := pivot_bal fmt dims values src f t } }

lemma pivotUpsert_credit (k : List Str) (c d : ℚ) :
    ∀ acc : List (List Str × ℚ × ℚ),
      ((pivotUpsert k c d acc).map (fun g => g.2.1)).sum
        = c + (acc.map (fun g => g.2.1)).sum := by
  intro acc
  induction acc with
  | nil => simp [pivotUpsert]
  | cons g rest ih =>
    rcases g with ⟨k2, c2, d2⟩
    by_cases hk : k = k2
    · simp only [pivotUpsert, if_pos hk, List.map_cons, List.sum_cons]
      ring
    · simp only [pivotUpsert, if_neg hk, List.map_cons, List.sum_cons, ih]
      ring

lemma pivotUpsert_debit (k : List Str) (c d : ℚ) :
    ∀ acc : List (List Str × ℚ × ℚ),
      ((pivotUpsert k c d acc).map (fun g => g.2.2)).sum
        = d + (acc.map (fun g => g.2.2)).sum := by
  intro acc
  induction acc with
  | nil => simp [pivotUpsert]
  | cons g rest ih =>
    rcases g with ⟨k2, c2, d2⟩
    by_cases hk : k = k2
    · simp only [pivotUpsert, if_pos hk, List.map_cons, List.sum_cons]
      ring
    · simp only [pivotUpsert, if_neg hk, List.map_cons, List.sum_cons, ih]
      ring

lemma pivotGroups_fold_credit (fmt : Option ℤ → Str) (dims : List Str) :
    ∀ (l : List Row) (acc : List (List Str × ℚ × ℚ)),
      ((l.foldl (fun a r => pivotUpsert (groupKey fmt dims r) r.credit r.debit a)
          acc).map (fun g => g.2.1)).sum
        = (l.map Row.credit).sum + (acc.map (fun g => g.2.1)).sum := by
  intro l
  induction l with
  | nil => intro acc; simp
  | cons r rest ih =>
    intro acc
    rw [List.foldl_cons, ih, pivotUpsert_credit, List.map_cons, List.sum_cons]
    ring

lemma pivotGroups_fold_debit (fmt : Option ℤ → Str) (dims : List Str) :
    ∀ (l : List Row) (acc : List (List Str × ℚ × ℚ)),
      ((l.foldl (fun a r => pivotUpsert (groupKey fmt dims r) r.credit r.debit a)
          acc).map (fun g => g.2.2)).sum
        = (l.map Row.debit).sum + (acc.map (fun g => g.2.2)).sum := by
  intro l
  induction l with
  | nil => intro acc; simp
  | cons r rest ih =>
    intro acc
    rw [List.foldl_cons, ih, pivotUpsert_debit, List.map_cons, List.sum_cons]
    ring

lemma sum_map_sub (G : List (List Str × ℚ × ℚ)) :
    (G.map (fun g => g.2.1 - g.2.2)).sum
      = (G.map (fun g => g.2.1)).sum - (G.map (fun g => g.2.2)).sum := by
  induction G with
  | nil => simp
  | cons g rest ih =>
    simp only [List.map_cons, List.sum_cons, ih]
    ring

lemma pivotOut_credit (G : List (List Str × ℚ × ℚ)) :
    (pivotOut G).map PivotRow.credit = G.map (fun g => g.2.1) := by
  unfold pivotOut
  rw [List.map_map]
  rfl

lemma pivotOut_debit (G : List (List Str × ℚ × ℚ)) :
    (pivotOut G).map PivotRow.debit = G.map (fun g => g.2.2) := by
  unfold pivotOut
  rw [List.map_map]
  rfl

lemma pivotOut_margin (G : List (List Str × ℚ × ℚ)) :
    (pivotOut G).map PivotRow.margin = G.map (fun g => g.2.1 - g.2.2) := by
  unfold pivotOut
  rw [List.map_map]
  rfl

lemma pivot_bal_eq_sumCD (fmt : Option ℤ → Str) (dims : List Str)
    (values : Str → Option (List Str)) (src : Sources) (f t : ℤ) :
    pivot_bal fmt dims values src f t = sumCD (pivotFilt fmt dims values src f t) := by
  unfold pivot_bal
  rw [foldl_sumCD, zero_add]
  exact sumCD_perm (List.perm_insertionSort dateLe _)

/-- C9: for every pivot request (any dimension list, value filters,
period formatter and date range), each group row carries
`margin = credit - debit`; the reported totals are exactly the sums of the
group credits, debits and margins; those group sums equal the
credit/debit sums over the filtered (not grouped) row set; the margin
total equals the credit total minus the debit total; and the balance total
is the chronological running balance over the filtered row set, which
equals its `credit - debit` sum. -/
theorem C9_pivot_totals_consistency (fmt : Option ℤ → Str) (dims : List Str)
    (values : Str → Option (List Str)) (src : Sources) (f t : ℤ) :
    (∀ g ∈ (financialDashboardPivot fmt dims values src f t).rows,
        g.margin = g.credit - g.debit)
    ∧ (financialDashboardPivot fmt dims values src f t).totals.credit
        = ((financialDashboardPivot fmt dims values src f t).rows.map
            PivotRow.credit).sum
    ∧ (financialDashboardPivot fmt dims values src f t).totals.debit
        = ((financialDashboardPivot fmt dims values src f t).rows.map
            PivotRow.debit).sum
    ∧ (financialDashboardPivot fmt dims values src f t).totals.margin
        = ((financialDashboardPivot fmt dims values src f t).rows.map
            PivotRow.margin).sum
    ∧ (financialDashboardPivot fmt dims values src f t).totals.credit
        = ((pivotFilt fmt dims values src f t).map Row.credit).sum
    ∧ (financialDashboardPivot fmt dims values src f t).totals.debit
        = ((pivotFilt fmt dims values src f t).map Row.debit).sum
    ∧ (financialDashboardPivot fmt dims values src f t).totals.margin
        = (financialDashboardPivot fmt dims values src f t).totals.credit
          - (financialDashboardPivot fmt dims values src f t).totals.debit
    ∧ (financialDashboardPivot fmt dims values src f t).totals.balance
        = (List.insertionSort dateLe (pivotFilt fmt dims values src f t)).foldl
            (fun b r => b + r.credit - r.debit) 0
    ∧ (financialDashboardPivot fmt dims values src f t).totals.balance
        = sumCD (pivotFilt fmt dims values src f t) := by
  refine ⟨?_, rfl, rfl, rfl, ?_, ?_, ?_, rfl, ?_⟩
  · intro g hg
    have hg2 : g ∈ pivotOut (pivotGroups fmt dims (pivotFilt fmt dims values src f t)) :=
      hg
    rcases List.mem_map.mp hg2 with ⟨x, _, rfl⟩
    rfl
  · show ((pivotOut (pivotGroups fmt dims (pivotFilt fmt dims values src f t))).map
        PivotRow.credit).sum
      = ((pivotFilt fmt dims values src f t).map Row.credit).sum
    rw [pivotOut_credit]
    unfold pivotGroups
    rw [pivotGroups_fold_credit]
    simp
  · show ((pivotOut (pivotGroups fmt dims (pivotFilt fmt dims values src f t))).map
        PivotRow.debit).sum
      = ((pivotFilt fmt dims values src f t).map Row.debit).sum
    rw [pivotOut_debit]
    unfold pivotGroups
    rw [pivotGroups_fold_debit]
    simp
  · show ((pivotOut (pivotGroups fmt dims (pivotFilt fmt dims values src f t))).map
        PivotRow.margin).sum
      = ((pivotOut (pivotGroups fmt dims (pivotFilt fmt dims values src f t))).map
          PivotRow.credit).sum
        - ((pivotOut (pivotGroups fmt dims (pivotFilt fmt dims values src f t))).map
            PivotRow.debit).sum
    rw [pivotOut_margin, pivotOut_credit, pivotOut_debit, sum_map_sub]
  · exact pivot_bal_eq_sumCD fmt dims values src f t

/-- Bank-upload source with one row (day 3, credit 9) for the C9 witness. -/
def c9src : Sources := ⟨[], [], [{ date_val := some 3, credit := some 9 }]⟩

def c9fmt : Option ℤ → Str := fun _ => []

def c9values : Str → Option (List Str) := fun _ => none

theorem C9_witness :
    (⟨[], 9, 0, 9 - 0⟩ : PivotRow).margin
      = (⟨[], 9, 0, 9 - 0⟩ : PivotRow).credit - (⟨[], 9, 0, 9 - 0⟩ : PivotRow).debit :=
  (C9_pivot_totals_consistency c9fmt [] c9values c9src 1 5).1
    ⟨[], 9, 0, 9 - 0⟩
    (by
      rw [show (financialDashboardPivot c9fmt [] c9values c9src 1 5).rows
          = [(⟨[], 9, 0, 9 - 0⟩ : PivotRow)] from rfl]
      exact List.mem_singleton.mpr rfl)
